import Mathlib

/-!
# Verification of the proctree process-tree session library

This file gives a shallow embedding of the `proctree` Go package: the
`Process` node type, the `ProcTree` session, the central `lockedUpdate`
algorithm (tombstone marking, reconciliation, pruning, configured-root
resolution, absolute-structure rebuild, inclusion walks, kernel-thread
exclusion, included-structure pass), and the per-node query operations
(`Parent`, `Depth`, `IsDescendantOf`, subtree and ancestry walks).

Modelling notes:
* Go pointers to `Process` objects are modelled with an arena: every node has
  a numeric identity (`Nat`), allocated from `ProcTree.nextId`; the arena is a
  total function `Nat → Process`.  Object identity across updates is identity
  of these arena indices.
* The Go `map[int]*Process` is modelled as an association list
  `List (Int × Nat)` from pid to arena index; the code only inserts a key when
  it is absent, so keys stay distinct.  Iteration order over the map is
  unspecified in Go; every map iteration in the source is either
  order-insensitive or followed by a sort on the (distinct) pids, so the
  association-list order is a faithful canonical choice.
* Recursive walks in the source can genuinely diverge (the parent/child links
  form an arbitrary graph); they are embedded with an explicit recursion-depth
  fuel, returning `none` when the fuel runs out.  A run of the Go code
  terminates iff some fuel returns `some`.
* The enumeration provider (`gops.Processes()`) is an external effect; it is
  passed to `lockedUpdate` as a value `Except String (List GProc)`.
-/

/-- Raw enumeration record, the `gops.Process` interface: pid, parent pid and
executable name. -/
structure GProc where
  pid : Int
  ppid : Int
  exe : String
deriving DecidableEq, Repr

/-- The `Process` struct from the source: raw enumeration data plus structural
links.  Pointer fields become `Option Nat` / `List Nat` of arena indices. -/
structure Process where
  gops : GProc
  isTombstone : Bool
  parentProc : Option Nat
  origParentProc : Option Nat
  absChildProcs : List Nat
  includedChildProcs : List Nat
  isIncluded : Bool
deriving DecidableEq, Repr

/-- `newProcess` from the source: fresh node with no links, not a tombstone,
included by default. -/
def newProcess (g : GProc) : Process :=
  { gops := g
    isTombstone := false
    parentProc := none
    origParentProc := none
    absChildProcs := []
    includedChildProcs := []
    isIncluded := true }

instance : Inhabited Process := ⟨newProcess ⟨0, 0, ""⟩⟩

/-- The immutable `Config` struct. -/
structure Config where
  includeKernelThreads : Bool
  includeRootAncestors : Bool
  rootPids : List Int
deriving DecidableEq, Repr

/-- The `ProcTree` session struct.  `arena` holds every `Process` object ever
allocated; `pidMap` is the pid-to-node map; the remaining fields are the
derived views rebuilt by each update. -/
structure ProcTree where
  cfg : Config
  nextId : Nat
  arena : Nat → Process
  pidMap : List (Int × Nat)
  absProcs : List Nat
  absRootProcs : List Nat
  cfgRootProcs : Option (List Nat)
  includedProcs : List Nat
  includedRootProcs : List Nat

/-- Store a node in the arena. -/
def setNode (st : ProcTree) (nid : Nat) (p : Process) : ProcTree :=
  { st with arena := Function.update st.arena nid p }

/-- Association-list lookup, the read `pt.pidMap[pid]`. -/
def lookupPid : List (Int × Nat) → Int → Option Nat
  | [], _ => none
  | (q, nid) :: rest, p => if q = p then some nid else lookupPid rest p

/-- `fixedRoots := len(pt.cfg.rootPids) > 0`. -/
def fixedRootsOf (cfg : Config) : Bool :=
  !cfg.rootPids.isEmpty

/-- The hard-coded kernel-thread pid (`const kthreadPid = 2`). -/
def kthreadPid : Int := 2

/-- The reconcile guard from `lockedUpdate`:
`pt.cfg.includeKernelThreads || (pid != 2 && ppid != 2)`. -/
def allowedRec (cfg : Config) (g : GProc) : Bool :=
  cfg.includeKernelThreads || (g.pid != 2 && g.ppid != 2)

/-- Mark-all-tombstone pass: every node currently in the pid map is marked
tombstone and has its child lists cleared. -/
def markAllTombstone (st : ProcTree) : ProcTree :=
  st.pidMap.foldl
    (fun s e =>
      setNode s e.2
        { s.arena e.2 with
            isTombstone := true
            absChildProcs := []
            includedChildProcs := [] })
    st

/-- Reconcile one enumerated record: skip it unless `allowedRec`; refresh an
existing node (same identity, tombstone cleared) or create a new one, which is
included by default only when no roots are configured. -/
def reconcileOne (st : ProcTree) (g : GProc) : ProcTree :=
  if allowedRec st.cfg g then
    match lookupPid st.pidMap g.pid with
    | some nid =>
        setNode st nid { st.arena nid with gops := g, isTombstone := false }
    | none =>
        let nid := st.nextId
        let p := { newProcess g with isIncluded := !fixedRootsOf st.cfg }
        { setNode st nid p with
            nextId := st.nextId + 1
            pidMap := st.pidMap ++ [(g.pid, nid)] }
  else st

/-- Prune pass: delete every pid-map entry whose node is still a tombstone. -/
def prunePass (st : ProcTree) : ProcTree :=
  { st with pidMap := st.pidMap.filter (fun e => !(st.arena e.2).isTombstone) }

/-- Phase 1 of `lockedUpdate` after a successful enumeration: mark-all, then
reconcile each record in order, then optionally prune. -/
def updateReconciled (st : ProcTree) (procs : List GProc) (prune : Bool) : ProcTree :=
  let st1 := markAllTombstone st
  let st2 := procs.foldl reconcileOne st1
  if prune then prunePass st2 else st2

/-- Resolve the configured root pids against the pid map, in configuration
order; the first missing pid aborts with the `"Configured root pid %d does not
exist"` error. -/
def resolveRootsAux (m : List (Int × Nat)) : List Int → Except String (List Nat)
  | [] => .ok []
  | pid :: rest =>
    match lookupPid m pid with
    | none => .error ("Configured root pid " ++ toString pid ++ " does not exist")
    | some nid =>
      match resolveRootsAux m rest with
      | .error e => .error e
      | .ok l => .ok (nid :: l)

/-- The configured-root resolution step: runs only when roots are configured
and not yet resolved; on failure the configured-root list stays unresolved. -/
def updateResolve (st : ProcTree) : Except String ProcTree :=
  if fixedRootsOf st.cfg && st.cfgRootProcs.isNone then
    match resolveRootsAux st.pidMap st.cfg.rootPids with
    | .error e => .error e
    | .ok l => .ok { st with cfgRootProcs := some l }
  else .ok st

/-- One pid-map entry of the absolute-structure rebuild loop: append the node
to `absProcs`; resolve its parent by looking up its recorded parent pid (0 and
missing pids mean parentless); append it to the parent's child list, set its
parent link and (once only) its original-parent link, or record it as an
absolute root. -/
def rebuildOne (st : ProcTree) (e : Int × Nat) : ProcTree :=
  let nid := e.2
  let proc := st.arena nid
  let ppid := proc.gops.ppid
  let pproc : Option Nat := if ppid ≠ 0 then lookupPid st.pidMap ppid else none
  match pproc with
  | some pnid =>
      let st1 := setNode st pnid
        { st.arena pnid with absChildProcs := (st.arena pnid).absChildProcs ++ [nid] }
      let proc1 := st1.arena nid
      let st2 := setNode st1 nid
        { proc1 with
            parentProc := some pnid
            origParentProc :=
              if proc1.origParentProc = none then some pnid else proc1.origParentProc }
      { st2 with absProcs := st2.absProcs ++ [nid] }
  | none =>
      { st with
          absProcs := st.absProcs ++ [nid]
          absRootProcs := st.absRootProcs ++ [nid] }

/-- Absolute-structure rebuild: reset the derived lists and run `rebuildOne`
over every pid-map entry. -/
def rebuildAbs (st : ProcTree) : ProcTree :=
  st.pidMap.foldl rebuildOne { st with absProcs := [], absRootProcs := [] }

/-- Insert an arena index into a list sorted by ascending pid. -/
def insertByPid (ar : Nat → Process) (x : Nat) : List Nat → List Nat
  | [] => [x]
  | y :: ys =>
    if (ar x).gops.pid ≤ (ar y).gops.pid then x :: y :: ys
    else y :: insertByPid ar x ys

/-- `lockedSortProcessesByPid`: sort arena indices by ascending pid. -/
def sortNidsByPid (ar : Nat → Process) : List Nat → List Nat
  | [] => []
  | x :: xs => insertByPid ar x (sortNidsByPid ar xs)

/-- Sort one node's absolute child list by ascending pid. -/
def sortAbsChildStep (s : ProcTree) (nid : Nat) : ProcTree :=
  setNode s nid
    { s.arena nid with absChildProcs := sortNidsByPid s.arena (s.arena nid).absChildProcs }

/-- Sort `absProcs`, `absRootProcs` and every node's absolute child list by
ascending pid. -/
def sortAllAbs (st : ProcTree) : ProcTree :=
  let st1 := { st with
      absProcs := sortNidsByPid st.arena st.absProcs
      absRootProcs := sortNidsByPid st.arena st.absRootProcs }
  st1.absProcs.foldl sortAbsChildStep st1

/-- Set the inclusion flag of one node. -/
def setIncl (p : Process) (b : Bool) : Process :=
  { p with isIncluded := b }

/-- Error-propagating fold step: once a walk has failed (diverged), the
remaining iterations are skipped. -/
def optStep {α β : Type _} (g : β → α → Option β) (acc : Option β) (c : α) : Option β :=
  match acc with
  | none => none
  | some a => g a c

/-- `lockedWalkFullSubtree` with a mark-inclusion handler: mark the node, then
recurse into its absolute children.  `fuel` bounds the recursion depth; `none`
means the recursion of the source would not terminate within that depth. -/
def markSubtree (b : Bool) : Nat → (Nat → Process) → Nat → Option (Nat → Process)
  | 0, _, _ => none
  | Nat.succ f, ar, nid =>
    let ar1 := Function.update ar nid (setIncl (ar nid) b)
    (ar1 nid).absChildProcs.foldl (optStep (fun a c => markSubtree b f a c)) (some ar1)

/-- `lockedFullWalkFromRoots` with a mark-inclusion handler: walk the full
subtree of each root in order. -/
def markSubtreeRoots (b : Bool) (fuel : Nat) (ar0 : Nat → Process) (roots : List Nat) :
    Option (Nat → Process) :=
  roots.foldl (optStep (fun a r => markSubtree b fuel a r)) (some ar0)

/-- `lockedWalkFullAncestry` with a mark-inclusion handler: mark the node, then
climb to the parent unless it is absent or the node itself. -/
def markAncestry : Nat → (Nat → Process) → Nat → Option (Nat → Process)
  | 0, _, _ => none
  | Nat.succ f, ar, nid =>
    let ar1 := Function.update ar nid (setIncl (ar nid) true)
    match (ar1 nid).parentProc with
    | some par => if par = nid then some ar1 else markAncestry f ar1 par
    | none => some ar1

/-- Ancestry-marking walk from each configured root in order. -/
def markAncestryRoots (fuel : Nat) (ar0 : Nat → Process) (roots : List Nat) :
    Option (Nat → Process) :=
  roots.foldl (optStep (fun a r => markAncestry fuel a r)) (some ar0)

/-- Inclusion computation: with configured roots, mark the full subtree of each
configured root included, and with `includeRootAncestors` also each root's full
ancestry; without configured roots, mark every node included. -/
def updateInclude (fuel : Nat) (st : ProcTree) : Option ProcTree :=
  if fixedRootsOf st.cfg then
    match markSubtreeRoots true fuel st.arena (st.cfgRootProcs.getD []) with
    | none => none
    | some ar1 =>
      if st.cfg.includeRootAncestors then
        match markAncestryRoots fuel ar1 (st.cfgRootProcs.getD []) with
        | none => none
        | some ar2 => some { st with arena := ar2 }
      else some { st with arena := ar1 }
  else
    some (st.absProcs.foldl
      (fun s nid => setNode s nid (setIncl (s.arena nid) true)) st)

/-- Kernel-thread exclusion: when kernel threads are not included, locate the
node with pid 2 and, if present, mark its full subtree excluded. -/
def updateKernelExclude (fuel : Nat) (st : ProcTree) : Option ProcTree :=
  if st.cfg.includeKernelThreads then some st
  else
    match lookupPid st.pidMap kthreadPid with
    | none => some st
    | some knid =>
      match markSubtree false fuel st.arena knid with
      | none => none
      | some ar => some { st with arena := ar }

/-- One node of the included-structure pass: an included node joins
`includedProcs` and its parent's included child list, and is an included root
iff it is parentless, its own parent, or has an unincluded parent. -/
def includedPassStep (s : ProcTree) (nid : Nat) : ProcTree :=
  let proc := s.arena nid
  if proc.isIncluded then
    let s1 := { s with includedProcs := s.includedProcs ++ [nid] }
    match proc.parentProc with
    | some pnid =>
        let s2 := setNode s1 pnid
          { s1.arena pnid with
              includedChildProcs := (s1.arena pnid).includedChildProcs ++ [nid] }
        if pnid = nid ∨ (s2.arena pnid).isIncluded = false then
          { s2 with includedRootProcs := s2.includedRootProcs ++ [nid] }
        else s2
    | none => { s1 with includedRootProcs := s1.includedRootProcs ++ [nid] }
  else s

/-- Included-structure pass: reset the included lists and run the step over
the (sorted) absolute node list. -/
def includedPass (st : ProcTree) : ProcTree :=
  st.absProcs.foldl includedPassStep { st with includedProcs := [], includedRootProcs := [] }

/-- Sort one node's included child list by ascending pid. -/
def sortInclChildStep (s : ProcTree) (nid : Nat) : ProcTree :=
  setNode s nid
    { s.arena nid with
        includedChildProcs := sortNidsByPid s.arena (s.arena nid).includedChildProcs }

/-- Sort `includedProcs`, `includedRootProcs` and every node's included child
list by ascending pid. -/
def sortIncluded (st : ProcTree) : ProcTree :=
  let st1 := { st with
      includedProcs := sortNidsByPid st.arena st.includedProcs
      includedRootProcs := sortNidsByPid st.arena st.includedRootProcs }
  st1.absProcs.foldl sortInclChildStep st1

/-- `lockedUpdate`: the central update algorithm.  The enumeration result is a
parameter; on enumeration failure the error is returned with the session state
untouched.  The result pairs an optional error message with the resulting
state; `none` (outer) means a recursive walk of the source would diverge. -/
def lockedUpdate (fuel : Nat) (st : ProcTree) (enum : Except String (List GProc))
    (prune : Bool) : Option (Option String × ProcTree) :=
  match enum with
  | .error e => some (some e, st)
  | .ok procs =>
    let st3 := updateReconciled st procs prune
    match updateResolve st3 with
    | .error e => some (some e, st3)
    | .ok st4 =>
      let st5 := sortAllAbs (rebuildAbs st4)
      match updateInclude fuel st5 with
      | none => none
      | some st6 =>
        match updateKernelExclude fuel st6 with
        | none => none
        | some st7 => some (none, sortIncluded (includedPass st7))

/-- The empty session built by `New` before its initial update. -/
def freshSession (cfg : Config) : ProcTree :=
  { cfg := cfg
    nextId := 0
    arena := fun _ => newProcess ⟨0, 0, ""⟩
    pidMap := []
    absProcs := []
    absRootProcs := []
    cfgRootProcs := none
    includedProcs := []
    includedRootProcs := [] }

/-- `New`: build a fresh session and run the initial update (`prune = false`);
on error no session is produced. -/
def NewProcTree (fuel : Nat) (cfg : Config) (enum : Except String (List GProc)) :
    Option (Except String ProcTree) :=
  match lockedUpdate fuel (freshSession cfg) enum false with
  | none => none
  | some (some e, _) => some (.error e)
  | some (none, st) => some (.ok st)

/-- `Processes()`: snapshot of the included node list. -/
def Processes (st : ProcTree) : List Nat :=
  st.includedProcs

/-- `Roots()`: snapshot of the included root list. -/
def Roots (st : ProcTree) : List Nat :=
  st.includedRootProcs

/-- `PidProcess`: lookup a node of the current snapshot by pid. -/
def PidProcess (st : ProcTree) (pid : Int) : Option Nat :=
  lookupPid st.pidMap pid

/-- `lockedParent`: the absolute parent, suppressed when absent, equal to the
node itself, or not included. -/
def lockedParent (ar : Nat → Process) (nid : Nat) : Option Nat :=
  match (ar nid).parentProc with
  | none => none
  | some p => if p = nid ∨ (ar p).isIncluded = false then none else some p

/-- `lockedDepth`: count parent steps while the parent exists, differs from the
node, and is included.  Fueled: the source loop can cycle. -/
def lockedDepth : Nat → (Nat → Process) → Nat → Option Nat
  | 0, _, _ => none
  | Nat.succ f, ar, nid =>
    match (ar nid).parentProc with
    | some par =>
        if par ≠ nid ∧ (ar par).isIncluded then
          (lockedDepth f ar par).map (· + 1)
        else some 0
    | none => some 0

/-- `lockedIsDescendantOf`:
`parent != nil && ancestor != nil && (parent == ancestor || parent.lockedIsDescendantOf(ancestor))`.
Fueled: the source recursion can diverge. -/
def lockedIsDescendantOf : Nat → (Nat → Process) → Nat → Option Nat → Option Bool
  | 0, _, _, _ => none
  | Nat.succ f, ar, nid, ancestor =>
    match (ar nid).parentProc, ancestor with
    | some par, some anc =>
        if par = anc then some true
        else lockedIsDescendantOf f ar par ancestor
    | _, _ => some false

/-- The visit skeleton of `lockedWalkFullSubtree`: the list of nodes a full
subtree walk visits, in order; `none` when the recursion would diverge. -/
def walkVisited : Nat → (Nat → Process) → Nat → Option (List Nat)
  | 0, _, _ => none
  | Nat.succ f, ar, nid =>
    ((ar nid).absChildProcs.foldl
      (optStep (fun l c => (walkVisited f ar c).map (fun l2 => l ++ l2)))
      (some [])).map (fun l => nid :: l)

/-- The visit skeleton of `lockedWalkFullAncestry`: climbs the absolute parent
chain, stopping at a missing parent or a self-parent. -/
def ancestryVisited : Nat → (Nat → Process) → Nat → Option (List Nat)
  | 0, _, _ => none
  | Nat.succ f, ar, nid =>
    match (ar nid).parentProc with
    | some par =>
        if par = nid then some [nid]
        else (ancestryVisited f ar par).map (fun l => nid :: l)
    | none => some [nid]

/-- The visit skeleton of `lockedWalkSubtree` (inclusion-filtered subtree
walk): an unincluded node contributes nothing; an included one is visited and
its included children are walked. -/
def inclWalkVisited : Nat → (Nat → Process) → Nat → Option (List Nat)
  | 0, _, _ => none
  | Nat.succ f, ar, nid =>
    if (ar nid).isIncluded then
      ((ar nid).includedChildProcs.foldl
        (optStep (fun l c => (inclWalkVisited f ar c).map (fun l2 => l ++ l2)))
        (some [])).map (fun l => nid :: l)
    else some []

/-- Raw-record descendant-of-pid-2 test: `p` descends from pid 2 through the
parent-pid chain recorded in the enumeration itself. -/
def rawDescOf2 : Nat → List GProc → Int → Bool
  | 0, _, _ => false
  | Nat.succ f, procs, p =>
    procs.any (fun g => g.pid == p && (g.ppid == 2 || rawDescOf2 f procs g.ppid))

/-- Raw-record ancestor test: walking the parent-pid chain recorded in the
enumeration upward from `p` reaches `target`. -/
def rawReachesUp : Nat → List GProc → Int → Int → Bool
  | 0, _, _, _ => false
  | Nat.succ f, procs, p, target =>
    procs.any (fun g => g.pid == p && (g.ppid == target || rawReachesUp f procs g.ppid target))

/-- Project the session out of an update result (used to name concrete
states; the accompanying theorems certify the projection hit the real case). -/
def forceOk (r : Option (Except String ProcTree)) : ProcTree :=
  match r with
  | some (.ok st) => st
  | _ => freshSession ⟨false, false, []⟩

/-- Project the resulting session out of a `lockedUpdate` result. -/
def forceSnd (r : Option (Option String × ProcTree)) : ProcTree :=
  match r with
  | some (_, st) => st
  | none => freshSession ⟨false, false, []⟩

/-- The default configuration: kernel threads excluded, no fixed roots. -/
def cfgDefault : Config := ⟨false, false, []⟩

def c2Enum : List GProc := [⟨7, 7, "x"⟩]

def c2St : ProcTree := forceOk (NewProcTree 10 cfgDefault (.ok c2Enum))

def c10Enum : List GProc := [⟨1, 0, "init"⟩, ⟨2, 1, "kthreadd"⟩, ⟨7, 2, "kw"⟩, ⟨9, 7, "x"⟩]

def c10St : ProcTree := forceOk (NewProcTree 20 cfgDefault (.ok c10Enum))

def c3Enum : List GProc := [⟨5, 0, "r"⟩, ⟨2, 5, "k"⟩, ⟨7, 2, "kw"⟩, ⟨9, 7, "d"⟩]

def c3Cfg : Config := ⟨false, false, [5, 9]⟩

def c3St : ProcTree := forceOk (NewProcTree 20 c3Cfg (.ok c3Enum))

def c6EnumA : List GProc := [⟨1, 0, "init"⟩, ⟨5, 1, "a"⟩]

def c6EnumB : List GProc := [⟨1, 0, "init"⟩]

def c6StA : ProcTree := forceOk (NewProcTree 20 cfgDefault (.ok c6EnumA))

def c6StB : ProcTree := forceSnd (lockedUpdate 20 c6StA (.ok c6EnumB) false)

def c6StC : ProcTree := forceSnd (lockedUpdate 20 c6StB (.ok c6EnumB) true)

def c8Base : ProcTree := forceOk (NewProcTree 10 cfgDefault (.ok [⟨1, 0, "init"⟩]))

/-- Resulting session of rediscovering both pids of `c6EnumA` with pruning. -/
def c5St : ProcTree := forceSnd (lockedUpdate 20 c6StA (.ok c6EnumA) true)

def c7Enum : List GProc := [⟨1, 0, "a1"⟩, ⟨5, 1, "a2"⟩, ⟨10, 5, "r"⟩, ⟨11, 10, "c"⟩]

def c7CfgNoAnc : Config := ⟨false, false, [10]⟩

def c7CfgAnc : Config := ⟨false, true, [10]⟩

def c7StNoAnc : ProcTree := forceOk (NewProcTree 30 c7CfgNoAnc (.ok c7Enum))

def c7StAnc : ProcTree := forceOk (NewProcTree 30 c7CfgAnc (.ok c7Enum))

def c9St : ProcTree := forceSnd (lockedUpdate 20 (freshSession cfgDefault) (.ok c10Enum) false)

def c4Enum : List GProc := [⟨1, 0, "init"⟩]

def c4Cfg : Config := ⟨false, false, [9999]⟩

/-- Well-formedness of a session's pid map, maintained by every update from a
fresh session: distinct keys, distinct node identities, identities below the
allocation counter, and each node's recorded pid equal to its map key. -/
def WellFormed (st : ProcTree) : Prop :=
  (st.pidMap.map Prod.fst).Nodup ∧
  (st.pidMap.map Prod.snd).Nodup ∧
  ∀ e ∈ st.pidMap, e.2 < st.nextId ∧ (st.arena e.2).gops.pid = e.1

instance (st : ProcTree) : Decidable (WellFormed st) := by
  unfold WellFormed
  exact inferInstance

/-- No trace of pid 2 in a session: every mapped node has recorded pid and
parent pid different from 2 and every key differs from 2; likewise for the
included view.  This is the invariant behind kernel-thread exclusion. -/
def NoKernelNodes (st : ProcTree) : Prop :=
  (∀ e ∈ st.pidMap, (st.arena e.2).gops.pid ≠ 2 ∧ (st.arena e.2).gops.ppid ≠ 2 ∧ e.1 ≠ 2) ∧
  (∀ nid ∈ st.includedProcs, (st.arena nid).gops.pid ≠ 2 ∧ (st.arena nid).gops.ppid ≠ 2)

instance (st : ProcTree) : Decidable (NoKernelNodes st) := by
  unfold NoKernelNodes
  exact inferInstance

/-- A node list strictly ascending by pid (hence duplicate-free pids). -/
def StrictByPid (ar : Nat → Process) (l : List Nat) : Prop :=
  List.Pairwise (fun a b => (ar a).gops.pid < (ar b).gops.pid) l

instance (ar : Nat → Process) (l : List Nat) : Decidable (StrictByPid ar l) := by
  unfold StrictByPid
  exact inferInstance

/-- Iterate the absolute parent link `k` times (`none` when the chain runs
out of parents before `k` steps). -/
def parentIter (ar : Nat → Process) : Nat → Nat → Option Nat
  | 0, n => some n
  | Nat.succ k, n =>
    match (ar n).parentProc with
    | some p => parentIter ar k p
    | none => none

/-! ## Generic fold and sort lemmas -/

theorem foldl_preserve {α β : Type _} {P : β → Prop} (l : List α) (f : β → α → β) (b : β)
    (hb : P b) (h : ∀ s a, a ∈ l → P s → P (f s a)) : P (l.foldl f b) := by
  induction l generalizing b with
  | nil => exact hb
  | cons c rest ih =>
    rw [List.foldl_cons]
    exact ih (f b c) (h b c (List.mem_cons_self c rest) hb)
      (fun s a ha hs => h s a (List.mem_cons_of_mem c ha) hs)

theorem foldl_mem_establish {α β : Type _} {Q : α → β → Prop} {f : β → α → β}
    (l : List α) (b : β)
    (est : ∀ s a, a ∈ l → Q a (f s a))
    (pres : ∀ s a a', a ∈ l → Q a' s → Q a' (f s a)) :
    ∀ a ∈ l, Q a (l.foldl f b) := by
  induction l generalizing b with
  | nil => intro a ha; cases ha
  | cons c rest ih =>
    intro a ha
    rw [List.foldl_cons]
    rcases List.mem_cons.mp ha with rfl | ha'
    · exact foldl_preserve rest f (f b a) (est b a (List.mem_cons_self a rest))
        (fun s x hx hs => pres s x a (List.mem_cons_of_mem a hx) hs)
    · exact ih (f b c)
        (fun s x hx => est s x (List.mem_cons_of_mem c hx))
        (fun s x a' hx h => pres s x a' (List.mem_cons_of_mem c hx) h) a ha'

@[simp] theorem optStep_none {α β : Type _} (g : β → α → Option β) (c : α) :
    optStep g none c = none := rfl

@[simp] theorem optStep_some {α β : Type _} (g : β → α → Option β) (a : β) (c : α) :
    optStep g (some a) c = g a c := rfl

theorem optFoldl_none {α β : Type _} (g : β → α → Option β) (l : List α) :
    l.foldl (optStep g) none = none := by
  induction l with
  | nil => rfl
  | cons c rest ih => rw [List.foldl_cons, optStep_none]; exact ih

theorem optFoldl_invariant {α β : Type _} (g : β → α → Option β) (P : β → Prop)
    (l : List α) (b : β) (hb : P b)
    (h : ∀ s a r, a ∈ l → P s → g s a = some r → P r) :
    ∀ r, l.foldl (optStep g) (some b) = some r → P r := by
  induction l generalizing b with
  | nil => intro r hr; cases hr; exact hb
  | cons c rest ih =>
    intro r hr
    rw [List.foldl_cons, optStep_some] at hr
    cases hgc : g b c with
    | none => rw [hgc, optFoldl_none] at hr; cases hr
    | some b' =>
      rw [hgc] at hr
      exact ih b' (h b c b' (List.mem_cons_self c rest) hb hgc)
        (fun s a r' ha hs hg => h s a r' (List.mem_cons_of_mem c ha) hs hg) r hr

theorem optFoldl_some_mem {α β : Type _} (g : β → α → Option β)
    (l : List α) (b : β) (r : β)
    (h : l.foldl (optStep g) (some b) = some r) :
    ∀ a ∈ l, ∃ s s', g s a = some s' := by
  induction l generalizing b with
  | nil => intro a ha; cases ha
  | cons c rest ih =>
    intro a ha
    rw [List.foldl_cons, optStep_some] at h
    cases hgc : g b c with
    | none => rw [hgc, optFoldl_none] at h; cases h
    | some b' =>
      rw [hgc] at h
      rcases List.mem_cons.mp ha with rfl | ha'
      · exact ⟨b, b', hgc⟩
      · exact ih b' h a ha'

theorem mem_insertByPid (ar : Nat → Process) (x y : Nat) (l : List Nat) :
    y ∈ insertByPid ar x l ↔ y = x ∨ y ∈ l := by
  induction l with
  | nil => simp [insertByPid]
  | cons z zs ih =>
    by_cases h : (ar x).gops.pid ≤ (ar z).gops.pid
    · simp [insertByPid, h]
    · simp [insertByPid, h, ih]
      tauto

theorem insertByPid_perm (ar : Nat → Process) (x : Nat) (l : List Nat) :
    List.Perm (insertByPid ar x l) (x :: l) := by
  induction l with
  | nil => simp [insertByPid]
  | cons z zs ih =>
    by_cases h : (ar x).gops.pid ≤ (ar z).gops.pid
    · simp [insertByPid, h]
    · simp only [insertByPid, h, if_false]
      exact (ih.cons z).trans (List.Perm.swap x z zs)

theorem sortNidsByPid_perm (ar : Nat → Process) (l : List Nat) :
    List.Perm (sortNidsByPid ar l) l := by
  induction l with
  | nil => simp [sortNidsByPid]
  | cons x xs ih =>
    exact (insertByPid_perm ar x (sortNidsByPid ar xs)).trans (ih.cons x)

theorem mem_sortNidsByPid (ar : Nat → Process) (y : Nat) (l : List Nat) :
    y ∈ sortNidsByPid ar l ↔ y ∈ l :=
  (sortNidsByPid_perm ar l).mem_iff

theorem insertByPid_pairwise (ar : Nat → Process) (x : Nat) (l : List Nat)
    (h : l.Pairwise (fun a b => (ar a).gops.pid ≤ (ar b).gops.pid)) :
    (insertByPid ar x l).Pairwise (fun a b => (ar a).gops.pid ≤ (ar b).gops.pid) := by
  induction l with
  | nil => simp [insertByPid]
  | cons z zs ih =>
    rcases List.pairwise_cons.mp h with ⟨hz, hzs⟩
    by_cases hle : (ar x).gops.pid ≤ (ar z).gops.pid
    · rw [insertByPid, if_pos hle]
      refine List.pairwise_cons.mpr ⟨?_, h⟩
      intro b hb
      rcases List.mem_cons.mp hb with rfl | hb'
      · exact hle
      · exact le_trans hle (hz b hb')
    · rw [insertByPid, if_neg hle]
      push_neg at hle
      refine List.pairwise_cons.mpr ⟨?_, ih hzs⟩
      intro b hb
      rcases (mem_insertByPid ar x b zs).mp hb with rfl | hb'
      · exact le_of_lt hle
      · exact hz b hb'

theorem sortNidsByPid_pairwise (ar : Nat → Process) (l : List Nat) :
    (sortNidsByPid ar l).Pairwise (fun a b => (ar a).gops.pid ≤ (ar b).gops.pid) := by
  induction l with
  | nil => simp [sortNidsByPid]
  | cons x xs ih => exact insertByPid_pairwise ar x (sortNidsByPid ar xs) ih

theorem pairwise_lt_of_le_nodup (key : Nat → Int) (l : List Nat)
    (h1 : l.Pairwise (fun a b => key a ≤ key b)) (h2 : (l.map key).Nodup) :
    l.Pairwise (fun a b => key a < key b) := by
  induction l with
  | nil => exact List.Pairwise.nil
  | cons x xs ih =>
    rcases List.pairwise_cons.mp h1 with ⟨hx, hxs⟩
    rw [List.map_cons, List.nodup_cons] at h2
    refine List.pairwise_cons.mpr ⟨?_, ih hxs h2.2⟩
    intro b hb
    refine lt_of_le_of_ne (hx b hb) ?_
    intro hkey
    exact h2.1 (hkey ▸ List.mem_map_of_mem key hb)

/-! ## Association-list lookup lemmas -/

theorem lookupPid_append_some (m1 m2 : List (Int × Nat)) (p : Int) (n : Nat)
    (h : lookupPid m1 p = some n) : lookupPid (m1 ++ m2) p = some n := by
  induction m1 with
  | nil => cases h
  | cons e rest ih =>
    cases e with
    | mk q nid =>
      by_cases hq : q = p
      · simp [lookupPid, hq] at h ⊢; exact h
      · simp [lookupPid, hq] at h ⊢; exact ih h

theorem lookupPid_append_none (m1 m2 : List (Int × Nat)) (p : Int)
    (h : lookupPid m1 p = none) : lookupPid (m1 ++ m2) p = lookupPid m2 p := by
  induction m1 with
  | nil => rfl
  | cons e rest ih =>
    cases e with
    | mk q nid =>
      by_cases hq : q = p
      · simp [lookupPid, hq] at h
      · simp [lookupPid, hq] at h ⊢; exact ih h

theorem lookupPid_eq_none_iff (m : List (Int × Nat)) (p : Int) :
    lookupPid m p = none ↔ ∀ e ∈ m, e.1 ≠ p := by
  induction m with
  | nil => simp [lookupPid]
  | cons e rest ih =>
    cases e with
    | mk q nid =>
      by_cases hq : q = p
      · simp [lookupPid, hq]
      · simp [lookupPid, hq, ih]

theorem lookupPid_mem (m : List (Int × Nat)) (p : Int) (n : Nat)
    (h : lookupPid m p = some n) : (p, n) ∈ m := by
  induction m with
  | nil => cases h
  | cons e rest ih =>
    cases e with
    | mk q nid =>
      by_cases hq : q = p
      · subst hq; simp [lookupPid] at h; simp [h]
      · simp [lookupPid, hq] at h; exact List.mem_cons_of_mem _ (ih h)

/-! ## Projection lemmas for state updates -/

@[simp] theorem setNode_pidMap (st : ProcTree) (n : Nat) (p : Process) :
    (setNode st n p).pidMap = st.pidMap := rfl

@[simp] theorem setNode_cfg (st : ProcTree) (n : Nat) (p : Process) :
    (setNode st n p).cfg = st.cfg := rfl

@[simp] theorem setNode_nextId (st : ProcTree) (n : Nat) (p : Process) :
    (setNode st n p).nextId = st.nextId := rfl

@[simp] theorem setNode_cfgRootProcs (st : ProcTree) (n : Nat) (p : Process) :
    (setNode st n p).cfgRootProcs = st.cfgRootProcs := rfl

@[simp] theorem setNode_absProcs (st : ProcTree) (n : Nat) (p : Process) :
    (setNode st n p).absProcs = st.absProcs := rfl

@[simp] theorem setNode_absRootProcs (st : ProcTree) (n : Nat) (p : Process) :
    (setNode st n p).absRootProcs = st.absRootProcs := rfl

@[simp] theorem setNode_includedProcs (st : ProcTree) (n : Nat) (p : Process) :
    (setNode st n p).includedProcs = st.includedProcs := rfl

@[simp] theorem setNode_includedRootProcs (st : ProcTree) (n : Nat) (p : Process) :
    (setNode st n p).includedRootProcs = st.includedRootProcs := rfl

@[simp] theorem setNode_arena_same (st : ProcTree) (n : Nat) (p : Process) :
    (setNode st n p).arena n = p := by
  simp [setNode]

theorem setNode_arena_ne (st : ProcTree) (n m : Nat) (p : Process) (h : m ≠ n) :
    (setNode st n p).arena m = st.arena m := by
  simp [setNode, Function.update_noteq h]

theorem markAllTombstone_pidMap (st : ProcTree) :
    (markAllTombstone st).pidMap = st.pidMap := by
  unfold markAllTombstone
  apply foldl_preserve (P := fun s => s.pidMap = st.pidMap) st.pidMap _ st rfl
  intro s a _ hs
  simpa using hs

theorem markAllTombstone_marks (st : ProcTree) :
    ∀ e ∈ st.pidMap,
      ((markAllTombstone st).arena e.2).isTombstone = true ∧
      ((markAllTombstone st).arena e.2).absChildProcs = [] ∧
      ((markAllTombstone st).arena e.2).includedChildProcs = [] := by
  unfold markAllTombstone
  refine foldl_mem_establish
    (Q := fun e s =>
      (s.arena e.2).isTombstone = true ∧
      (s.arena e.2).absChildProcs = [] ∧
      (s.arena e.2).includedChildProcs = [])
    st.pidMap st ?_ ?_
  · intro s a _
    simp
  · intro s a a' _ h
    by_cases hee : a'.2 = a.2
    · simp [hee]
    · simpa [setNode_arena_ne _ _ _ _ hee] using h

/-! ## Claim C1 -/

/-- Claim C1: if the enumeration provider call inside `update` fails, `update`
returns the enumeration error with the whole session state (pid map, all node
fields, all derived lists) exactly as before, for every prior session state;
and construction (`New`), whose initial update fails the same way, returns the
error and produces no session. -/
theorem enumFailureLeavesStateUnchanged :
    (∀ (fuel : Nat) (st : ProcTree) (e : String) (prune : Bool),
        lockedUpdate fuel st (.error e) prune = some (some e, st)) ∧
    (∀ (fuel : Nat) (cfg : Config) (e : String),
        NewProcTree fuel cfg (.error e) = some (.error e)) :=
  ⟨fun _ _ _ _ => rfl, fun _ _ _ => rfl⟩

/-! ## Claim C8 -/

/-- Claim C8 counterexample: the claim says the mark-all-tombstone pass happens
before the enumeration call on every update invocation.  In the code the
enumeration call comes first: after an update whose enumeration failed, the
session is returned completely unchanged, with its known node (pid 1 in this
concrete session) still not a tombstone — so no mark-all-tombstone pass
preceded the enumeration call. -/
theorem markBeforeEnumerateCounterexample :
    NewProcTree 10 cfgDefault (.ok [⟨1, 0, "init"⟩]) = some (.ok c8Base) ∧
    lockedUpdate 10 c8Base (.error "enum failed") false = some (some "enum failed", c8Base) ∧
    lookupPid c8Base.pidMap 1 = some 0 ∧
    (c8Base.arena 0).isTombstone = false :=
  ⟨rfl, rfl, by decide, by decide⟩

/-- Claim C8 (amended): the update calls the enumeration provider first and
marks tombstones second.  A failing enumeration returns the state unchanged
(no node is marked); when the enumeration succeeds, the mark-all-tombstone
pass — which really marks every currently known node tombstone and clears its
absolute and included child lists — is applied to the prior state before any
enumerated record is reconciled. -/
theorem updateEnumerateThenMarkAllTombstone :
    (∀ (fuel : Nat) (st : ProcTree) (e : String) (prune : Bool),
        (lockedUpdate fuel st (.error e) prune).map Prod.snd = some st) ∧
    (∀ (st : ProcTree) (procs : List GProc) (prune : Bool),
        updateReconciled st procs prune =
          if prune then prunePass (procs.foldl reconcileOne (markAllTombstone st))
          else procs.foldl reconcileOne (markAllTombstone st)) ∧
    (∀ st : ProcTree, ∀ e ∈ st.pidMap,
        ((markAllTombstone st).arena e.2).isTombstone = true ∧
        ((markAllTombstone st).arena e.2).absChildProcs = [] ∧
        ((markAllTombstone st).arena e.2).includedChildProcs = []) :=
  ⟨fun _ _ _ _ => rfl, fun _ _ _ => rfl, markAllTombstone_marks⟩

/-! ## Claim C2 -/

/-- A helper unfolding of `walkVisited` at positive fuel. -/
theorem walkVisited_succ (f : Nat) (ar : Nat → Process) (nid : Nat) :
    walkVisited (f + 1) ar nid =
      ((ar nid).absChildProcs.foldl
        (optStep (fun l c => (walkVisited f ar c).map (fun l2 => l ++ l2)))
        (some [])).map (fun l => nid :: l) := rfl

/-- Claim C2 counterexample: in the session built from the single enumeration
record `(7, 7)` the node's absolute parent resolves to itself, yet
`lockedIsDescendantOf` applied to the node and itself returns `true` (the
`parent == ancestor` test fires before any self-cycle check), where the claim
demands `false`.  The node is also its own absolute child, so the full subtree
walk from it recurses forever (see the amended theorem). -/
theorem selfCycleCounterexample :
    NewProcTree 10 cfgDefault (.ok c2Enum) = some (.ok c2St) ∧
    lookupPid c2St.pidMap 7 = some 0 ∧
    (c2St.arena 0).parentProc = some 0 ∧
    (0 : Nat) ∈ (c2St.arena 0).absChildProcs ∧
    lockedIsDescendantOf 10 c2St.arena 0 (some 0) = some true :=
  ⟨rfl, by decide, by decide, by decide, by decide⟩

/-- Claim C2 (amended): for a node `p` whose absolute parent resolves to `p`
itself, `depth()` returns 0 and the full-ancestry walk terminates immediately
(both check for a self-parent); but `isDescendantOf(p, p)` returns `true`
(not `false` as claimed — the `parent == ancestor` comparison precedes any
cycle handling), `isDescendantOf(p, q)` for any other target `q` never
terminates (the recursion re-enters `p` forever), and the full subtree walk
from `p` never terminates whenever `p` appears in its own absolute child list
(which the rebuild pass guarantees for a self-parented node of a session). -/
theorem selfParentedNodeBehavior (ar : Nat → Process) (p : Nat)
    (hpar : (ar p).parentProc = some p) :
    (∀ fuel : Nat, lockedDepth (fuel + 1) ar p = some 0) ∧
    (∀ fuel : Nat, ancestryVisited (fuel + 1) ar p = some [p]) ∧
    (∀ fuel : Nat, lockedIsDescendantOf (fuel + 1) ar p (some p) = some true) ∧
    (∀ q : Nat, q ≠ p → ∀ fuel : Nat, lockedIsDescendantOf fuel ar p (some q) = none) ∧
    (p ∈ (ar p).absChildProcs → ∀ fuel : Nat, walkVisited fuel ar p = none) := by
  refine ⟨?_, ?_, ?_, ?_, ?_⟩
  · intro fuel
    simp [lockedDepth, hpar]
  · intro fuel
    simp [ancestryVisited, hpar]
  · intro fuel
    simp [lockedIsDescendantOf, hpar]
  · intro q hq fuel
    induction fuel with
    | zero => rfl
    | succ f ih =>
      simp only [lockedIsDescendantOf, hpar]
      rw [if_neg (Ne.symm hq)]
      exact ih
  · intro hmem fuel
    induction fuel with
    | zero => rfl
    | succ f ih =>
      rw [walkVisited_succ, Option.map_eq_none']
      by_contra hF
      obtain ⟨L, hL⟩ := Option.ne_none_iff_exists'.mp hF
      obtain ⟨s, s', hg⟩ := optFoldl_some_mem _ _ _ _ hL p hmem
      rw [ih] at hg
      simp at hg

/-! ## Claim C10 -/

/-- Claim C10: under the default configuration (kernel threads excluded, no
fixed roots), the enumerated process 9 — whose pid and parent pid differ from
2, but whose parent record `(7, 2)` was skipped as a kernel thread — still
receives a node; because its parent is absent from the pid map it becomes an
absolute root, is marked included, and appears in both `Processes()` and
`Roots()`; the last-pass kernel-thread exclusion walk does nothing because no
node with pid 2 exists.  So this transitive raw descendant of pid 2 is
included in the filtered view. -/
theorem kernelThreadGrandchildIncluded :
    NewProcTree 20 cfgDefault (.ok c10Enum) = some (.ok c10St) ∧
    rawDescOf2 5 c10Enum 9 = true ∧
    lookupPid c10St.pidMap 9 = some 1 ∧
    (c10St.arena 1).gops.pid = 9 ∧
    (c10St.arena 1).parentProc = none ∧
    (1 : Nat) ∈ c10St.absRootProcs ∧
    (c10St.arena 1).isIncluded = true ∧
    (1 : Nat) ∈ Processes c10St ∧
    (1 : Nat) ∈ Roots c10St ∧
    lookupPid c10St.pidMap 2 = none :=
  ⟨rfl, by decide, by decide, by decide, by decide, by decide, by decide,
    by decide, by decide, by decide⟩

/-- Witness for the amended C2 theorem at the concrete self-parented session. -/
theorem selfParentedNodeBehaviorWitness :
    (c2St.arena 0).parentProc = some 0 ∧
    lockedDepth 3 c2St.arena 0 = some 0 ∧
    lockedIsDescendantOf 4 c2St.arena 0 (some 5) = none :=
  ⟨by decide, (selfParentedNodeBehavior c2St.arena 0 (by decide)).1 2,
    (selfParentedNodeBehavior c2St.arena 0 (by decide)).2.2.2.1 5 (by decide) 4⟩

/-! ## Field-preservation lemmas for the update phases -/

/-- Two arenas agreeing on every field except the inclusion flag: what the
marking walks preserve. -/
def SameSkeleton (ar ar2 : Nat → Process) : Prop :=
  ∀ n, (ar2 n).gops = (ar n).gops ∧
       (ar2 n).isTombstone = (ar n).isTombstone ∧
       (ar2 n).parentProc = (ar n).parentProc ∧
       (ar2 n).origParentProc = (ar n).origParentProc ∧
       (ar2 n).absChildProcs = (ar n).absChildProcs ∧
       (ar2 n).includedChildProcs = (ar n).includedChildProcs

theorem sameSkeleton_refl (ar : Nat → Process) : SameSkeleton ar ar :=
  fun _ => ⟨rfl, rfl, rfl, rfl, rfl, rfl⟩

theorem sameSkeleton_trans {a b c : Nat → Process}
    (h1 : SameSkeleton a b) (h2 : SameSkeleton b c) : SameSkeleton a c := by
  intro n
  rcases h1 n with ⟨e1, e2, e3, e4, e5, e6⟩
  rcases h2 n with ⟨f1, f2, f3, f4, f5, f6⟩
  exact ⟨f1.trans e1, f2.trans e2, f3.trans e3, f4.trans e4, f5.trans e5, f6.trans e6⟩

theorem sameSkeleton_setIncl (ar : Nat → Process) (nid : Nat) (b : Bool) :
    SameSkeleton ar (Function.update ar nid (setIncl (ar nid) b)) := by
  intro n
  by_cases h : n = nid
  · subst h; simp [setIncl]
  · simp [Function.update_noteq h]

theorem markSubtree_skeleton (b : Bool) :
    ∀ (fuel : Nat) (ar : Nat → Process) (nid : Nat) (ar' : Nat → Process),
      markSubtree b fuel ar nid = some ar' → SameSkeleton ar ar' := by
  intro fuel
  induction fuel with
  | zero => intro ar nid ar' h; cases h
  | succ f ih =>
    intro ar nid ar' h
    simp only [markSubtree] at h
    refine optFoldl_invariant _ (fun x => SameSkeleton ar x) _ _
      (sameSkeleton_setIncl ar nid b) ?_ ar' h
    intro s a r _ hs hg
    exact sameSkeleton_trans hs (ih s a r hg)

theorem markAncestry_skeleton :
    ∀ (fuel : Nat) (ar : Nat → Process) (nid : Nat) (ar' : Nat → Process),
      markAncestry fuel ar nid = some ar' → SameSkeleton ar ar' := by
  intro fuel
  induction fuel with
  | zero => intro ar nid ar' h; cases h
  | succ f ih =>
    intro ar nid ar' h
    simp only [markAncestry] at h
    split at h
    · rename_i par hpar
      by_cases hp : par = nid
      · rw [if_pos hp] at h
        cases h
        exact sameSkeleton_setIncl ar nid true
      · rw [if_neg hp] at h
        exact sameSkeleton_trans (sameSkeleton_setIncl ar nid true) (ih _ par ar' h)
    · cases h
      exact sameSkeleton_setIncl ar nid true

theorem markSubtreeRoots_skeleton (b : Bool) (fuel : Nat) (ar : Nat → Process)
    (roots : List Nat) (ar' : Nat → Process)
    (h : markSubtreeRoots b fuel ar roots = some ar') : SameSkeleton ar ar' := by
  unfold markSubtreeRoots at h
  refine optFoldl_invariant _ (fun x => SameSkeleton ar x) _ _
    (sameSkeleton_refl ar) ?_ ar' h
  intro s a r _ hs hg
  exact sameSkeleton_trans hs (markSubtree_skeleton b fuel s a r hg)

theorem markAncestryRoots_skeleton (fuel : Nat) (ar : Nat → Process)
    (roots : List Nat) (ar' : Nat → Process)
    (h : markAncestryRoots fuel ar roots = some ar') : SameSkeleton ar ar' := by
  unfold markAncestryRoots at h
  refine optFoldl_invariant _ (fun x => SameSkeleton ar x) _ _
    (sameSkeleton_refl ar) ?_ ar' h
  intro s a r _ hs hg
  exact sameSkeleton_trans hs (markAncestry_skeleton fuel s a r hg)

theorem markAllTombstone_views (st : ProcTree) :
    (markAllTombstone st).cfg = st.cfg ∧
    (markAllTombstone st).nextId = st.nextId ∧
    (markAllTombstone st).cfgRootProcs = st.cfgRootProcs ∧
    (markAllTombstone st).absProcs = st.absProcs ∧
    (markAllTombstone st).absRootProcs = st.absRootProcs ∧
    (markAllTombstone st).includedProcs = st.includedProcs ∧
    (markAllTombstone st).includedRootProcs = st.includedRootProcs := by
  unfold markAllTombstone
  apply foldl_preserve
    (P := fun s => s.cfg = st.cfg ∧ s.nextId = st.nextId ∧
      s.cfgRootProcs = st.cfgRootProcs ∧ s.absProcs = st.absProcs ∧
      s.absRootProcs = st.absRootProcs ∧ s.includedProcs = st.includedProcs ∧
      s.includedRootProcs = st.includedRootProcs)
    st.pidMap _ st ⟨rfl, rfl, rfl, rfl, rfl, rfl, rfl⟩
  intro s a _ hs
  simpa using hs

theorem markAllTombstone_arena_fields (st : ProcTree) (n : Nat) :
    ((markAllTombstone st).arena n).gops = (st.arena n).gops ∧
    ((markAllTombstone st).arena n).parentProc = (st.arena n).parentProc ∧
    ((markAllTombstone st).arena n).origParentProc = (st.arena n).origParentProc ∧
    ((markAllTombstone st).arena n).isIncluded = (st.arena n).isIncluded := by
  unfold markAllTombstone
  apply foldl_preserve
    (P := fun s => (s.arena n).gops = (st.arena n).gops ∧
      (s.arena n).parentProc = (st.arena n).parentProc ∧
      (s.arena n).origParentProc = (st.arena n).origParentProc ∧
      (s.arena n).isIncluded = (st.arena n).isIncluded)
    st.pidMap _ st ⟨rfl, rfl, rfl, rfl⟩
  intro s a _ hs
  by_cases h : n = a.2
  · subst h; simpa using hs
  · simpa [setNode_arena_ne _ _ _ _ h] using hs

theorem reconcileOne_views (st : ProcTree) (g : GProc) :
    (reconcileOne st g).cfg = st.cfg ∧
    (reconcileOne st g).cfgRootProcs = st.cfgRootProcs ∧
    (reconcileOne st g).absProcs = st.absProcs ∧
    (reconcileOne st g).absRootProcs = st.absRootProcs ∧
    (reconcileOne st g).includedProcs = st.includedProcs ∧
    (reconcileOne st g).includedRootProcs = st.includedRootProcs := by
  unfold reconcileOne
  split
  · split <;> exact ⟨rfl, rfl, rfl, rfl, rfl, rfl⟩
  · exact ⟨rfl, rfl, rfl, rfl, rfl, rfl⟩

theorem reconcileOne_lookup_some (st : ProcTree) (g : GProc) (p : Int) (n : Nat)
    (h : lookupPid st.pidMap p = some n) :
    lookupPid (reconcileOne st g).pidMap p = some n := by
  unfold reconcileOne
  split
  · split
    · simpa using h
    · exact lookupPid_append_some _ _ _ _ h
  · exact h

theorem reconcileFold_lookup_some (l : List GProc) (st : ProcTree) (p : Int) (n : Nat)
    (h : lookupPid st.pidMap p = some n) :
    lookupPid (l.foldl reconcileOne st).pidMap p = some n := by
  apply foldl_preserve (P := fun s => lookupPid s.pidMap p = some n) l reconcileOne st h
  intro s a _ hs
  exact reconcileOne_lookup_some s a p n hs

theorem prunePass_views (st : ProcTree) :
    (prunePass st).cfg = st.cfg ∧
    (prunePass st).nextId = st.nextId ∧
    (prunePass st).arena = st.arena ∧
    (prunePass st).cfgRootProcs = st.cfgRootProcs ∧
    (prunePass st).absProcs = st.absProcs ∧
    (prunePass st).absRootProcs = st.absRootProcs ∧
    (prunePass st).includedProcs = st.includedProcs ∧
    (prunePass st).includedRootProcs = st.includedRootProcs :=
  ⟨rfl, rfl, rfl, rfl, rfl, rfl, rfl, rfl⟩

theorem updateReconciled_cfg (st : ProcTree) (procs : List GProc) (prune : Bool) :
    (updateReconciled st procs prune).cfg = st.cfg := by
  unfold updateReconciled
  have h2 : (procs.foldl reconcileOne (markAllTombstone st)).cfg = st.cfg := by
    apply foldl_preserve (P := fun s => s.cfg = st.cfg) procs reconcileOne
      (markAllTombstone st) (markAllTombstone_views st).1
    intro s a _ hs
    exact (reconcileOne_views s a).1.trans hs
  split
  · exact h2
  · exact h2

theorem updateReconciled_cfgRootProcs (st : ProcTree) (procs : List GProc) (prune : Bool) :
    (updateReconciled st procs prune).cfgRootProcs = st.cfgRootProcs := by
  unfold updateReconciled
  have h2 : (procs.foldl reconcileOne (markAllTombstone st)).cfgRootProcs = st.cfgRootProcs := by
    apply foldl_preserve (P := fun s => s.cfgRootProcs = st.cfgRootProcs) procs reconcileOne
      (markAllTombstone st) (markAllTombstone_views st).2.2.1
    intro s a _ hs
    exact (reconcileOne_views s a).2.1.trans hs
  split
  · exact h2
  · exact h2

theorem updateResolve_ok_keeps (st st4 : ProcTree) (h : updateResolve st = .ok st4) :
    st4.pidMap = st.pidMap ∧ st4.cfg = st.cfg ∧ st4.nextId = st.nextId ∧
    st4.arena = st.arena ∧ st4.absProcs = st.absProcs ∧
    st4.absRootProcs = st.absRootProcs ∧ st4.includedProcs = st.includedProcs ∧
    st4.includedRootProcs = st.includedRootProcs := by
  unfold updateResolve at h
  split at h
  · split at h
    · cases h
    · cases h
      exact ⟨rfl, rfl, rfl, rfl, rfl, rfl, rfl, rfl⟩
  · cases h
    exact ⟨rfl, rfl, rfl, rfl, rfl, rfl, rfl, rfl⟩

theorem rebuildOne_keeps (st : ProcTree) (e : Int × Nat) :
    (rebuildOne st e).pidMap = st.pidMap ∧
    (rebuildOne st e).cfg = st.cfg ∧
    (rebuildOne st e).nextId = st.nextId ∧
    (rebuildOne st e).cfgRootProcs = st.cfgRootProcs ∧
    (rebuildOne st e).includedProcs = st.includedProcs ∧
    (rebuildOne st e).includedRootProcs = st.includedRootProcs ∧
    ∀ n, ((rebuildOne st e).arena n).gops = (st.arena n).gops ∧
         ((rebuildOne st e).arena n).isTombstone = (st.arena n).isTombstone ∧
         ((rebuildOne st e).arena n).isIncluded = (st.arena n).isIncluded ∧
         ((rebuildOne st e).arena n).includedChildProcs = (st.arena n).includedChildProcs := by
  unfold rebuildOne
  dsimp only
  split
  · rename_i pnid heq
    refine ⟨rfl, rfl, rfl, rfl, rfl, rfl, ?_⟩
    intro n
    by_cases h1 : n = e.2
    · subst h1
      by_cases h2 : e.2 = pnid
      · subst h2
        simp [setNode_arena_same]
      · simp [setNode_arena_same, setNode_arena_ne _ _ _ _ h2]
    · rw [setNode_arena_ne _ _ _ _ h1]
      by_cases h2 : n = pnid
      · subst h2
        simp [setNode_arena_same]
      · rw [setNode_arena_ne _ _ _ _ h2]
        exact ⟨rfl, rfl, rfl, rfl⟩
  · exact ⟨rfl, rfl, rfl, rfl, rfl, rfl, fun n => ⟨rfl, rfl, rfl, rfl⟩⟩

theorem rebuildAbs_keeps (st : ProcTree) :
    (rebuildAbs st).pidMap = st.pidMap ∧
    (rebuildAbs st).cfg = st.cfg ∧
    (rebuildAbs st).nextId = st.nextId ∧
    (rebuildAbs st).cfgRootProcs = st.cfgRootProcs ∧
    (rebuildAbs st).includedProcs = st.includedProcs ∧
    (rebuildAbs st).includedRootProcs = st.includedRootProcs ∧
    ∀ n, ((rebuildAbs st).arena n).gops = (st.arena n).gops ∧
         ((rebuildAbs st).arena n).isTombstone = (st.arena n).isTombstone ∧
         ((rebuildAbs st).arena n).isIncluded = (st.arena n).isIncluded ∧
         ((rebuildAbs st).arena n).includedChildProcs = (st.arena n).includedChildProcs := by
  unfold rebuildAbs
  refine foldl_preserve
    (P := fun s : ProcTree => s.pidMap = st.pidMap ∧ s.cfg = st.cfg ∧ s.nextId = st.nextId ∧
      s.cfgRootProcs = st.cfgRootProcs ∧ s.includedProcs = st.includedProcs ∧
      s.includedRootProcs = st.includedRootProcs ∧
      ∀ n, (s.arena n).gops = (st.arena n).gops ∧
           (s.arena n).isTombstone = (st.arena n).isTombstone ∧
           (s.arena n).isIncluded = (st.arena n).isIncluded ∧
           (s.arena n).includedChildProcs = (st.arena n).includedChildProcs)
    st.pidMap _ _ ?_ ?_
  · exact ⟨rfl, rfl, rfl, rfl, rfl, rfl, fun n => ⟨rfl, rfl, rfl, rfl⟩⟩
  intro s a _ hs
  obtain ⟨k1, k2, k3, k4, k5, k6, k7⟩ := rebuildOne_keeps s a
  refine ⟨k1.trans hs.1, k2.trans hs.2.1, k3.trans hs.2.2.1, k4.trans hs.2.2.2.1,
    k5.trans hs.2.2.2.2.1, k6.trans hs.2.2.2.2.2.1, ?_⟩
  intro n
  obtain ⟨f1, f2, f3, f4⟩ := k7 n
  obtain ⟨g1, g2, g3, g4⟩ := hs.2.2.2.2.2.2 n
  exact ⟨f1.trans g1, f2.trans g2, f3.trans g3, f4.trans g4⟩

theorem sortAllAbs_keeps (st : ProcTree) :
    (sortAllAbs st).pidMap = st.pidMap ∧
    (sortAllAbs st).cfg = st.cfg ∧
    (sortAllAbs st).nextId = st.nextId ∧
    (sortAllAbs st).cfgRootProcs = st.cfgRootProcs ∧
    (sortAllAbs st).includedProcs = st.includedProcs ∧
    (sortAllAbs st).includedRootProcs = st.includedRootProcs ∧
    ∀ n, ((sortAllAbs st).arena n).gops = (st.arena n).gops ∧
         ((sortAllAbs st).arena n).isTombstone = (st.arena n).isTombstone ∧
         ((sortAllAbs st).arena n).isIncluded = (st.arena n).isIncluded ∧
         ((sortAllAbs st).arena n).includedChildProcs = (st.arena n).includedChildProcs ∧
         ((sortAllAbs st).arena n).parentProc = (st.arena n).parentProc ∧
         ((sortAllAbs st).arena n).origParentProc = (st.arena n).origParentProc := by
  unfold sortAllAbs
  dsimp only
  refine foldl_preserve
    (P := fun s : ProcTree => s.pidMap = st.pidMap ∧ s.cfg = st.cfg ∧ s.nextId = st.nextId ∧
      s.cfgRootProcs = st.cfgRootProcs ∧ s.includedProcs = st.includedProcs ∧
      s.includedRootProcs = st.includedRootProcs ∧
      ∀ n, (s.arena n).gops = (st.arena n).gops ∧
           (s.arena n).isTombstone = (st.arena n).isTombstone ∧
           (s.arena n).isIncluded = (st.arena n).isIncluded ∧
           (s.arena n).includedChildProcs = (st.arena n).includedChildProcs ∧
           (s.arena n).parentProc = (st.arena n).parentProc ∧
           (s.arena n).origParentProc = (st.arena n).origParentProc)
    _ _ _ ?_ ?_
  · exact ⟨rfl, rfl, rfl, rfl, rfl, rfl, fun n => ⟨rfl, rfl, rfl, rfl, rfl, rfl⟩⟩
  intro s a _ hs
  refine ⟨hs.1, hs.2.1, hs.2.2.1, hs.2.2.2.1, hs.2.2.2.2.1, hs.2.2.2.2.2.1, ?_⟩
  intro n
  obtain ⟨g1, g2, g3, g4, g5, g6⟩ := hs.2.2.2.2.2.2 n
  by_cases h : n = a
  · subst h
    simpa [sortAbsChildStep, setNode_arena_same] using ⟨g1, g2, g3, g4, g5, g6⟩
  · simpa [sortAbsChildStep, setNode_arena_ne _ _ _ _ h] using ⟨g1, g2, g3, g4, g5, g6⟩

theorem updateInclude_keeps (fuel : Nat) (st st' : ProcTree)
    (h : updateInclude fuel st = some st') :
    st'.pidMap = st.pidMap ∧ st'.cfg = st.cfg ∧ st'.nextId = st.nextId ∧
    st'.cfgRootProcs = st.cfgRootProcs ∧ st'.absProcs = st.absProcs ∧
    st'.absRootProcs = st.absRootProcs ∧ st'.includedProcs = st.includedProcs ∧
    st'.includedRootProcs = st.includedRootProcs ∧ SameSkeleton st.arena st'.arena := by
  unfold updateInclude at h
  split at h
  · split at h
    · cases h
    · rename_i ar1 hsub
      split at h
      · split at h
        · cases h
        · rename_i ar2 hanc
          cases h
          exact ⟨rfl, rfl, rfl, rfl, rfl, rfl, rfl, rfl,
            sameSkeleton_trans (markSubtreeRoots_skeleton _ _ _ _ _ hsub)
              (markAncestryRoots_skeleton _ _ _ _ hanc)⟩
      · cases h
        exact ⟨rfl, rfl, rfl, rfl, rfl, rfl, rfl, rfl,
          markSubtreeRoots_skeleton _ _ _ _ _ hsub⟩
  · cases h
    refine foldl_preserve
      (P := fun s : ProcTree => s.pidMap = st.pidMap ∧ s.cfg = st.cfg ∧
        s.nextId = st.nextId ∧ s.cfgRootProcs = st.cfgRootProcs ∧
        s.absProcs = st.absProcs ∧ s.absRootProcs = st.absRootProcs ∧
        s.includedProcs = st.includedProcs ∧ s.includedRootProcs = st.includedRootProcs ∧
        SameSkeleton st.arena s.arena)
      st.absProcs _ st ?_ ?_
    · exact ⟨rfl, rfl, rfl, rfl, rfl, rfl, rfl, rfl, sameSkeleton_refl st.arena⟩
    intro s a _ hs
    refine ⟨hs.1, hs.2.1, hs.2.2.1, hs.2.2.2.1, hs.2.2.2.2.1, hs.2.2.2.2.2.1,
      hs.2.2.2.2.2.2.1, hs.2.2.2.2.2.2.2.1, ?_⟩
    exact sameSkeleton_trans hs.2.2.2.2.2.2.2.2 (sameSkeleton_setIncl s.arena a true)

theorem updateKernelExclude_keeps (fuel : Nat) (st st' : ProcTree)
    (h : updateKernelExclude fuel st = some st') :
    st'.pidMap = st.pidMap ∧ st'.cfg = st.cfg ∧ st'.nextId = st.nextId ∧
    st'.cfgRootProcs = st.cfgRootProcs ∧ st'.absProcs = st.absProcs ∧
    st'.absRootProcs = st.absRootProcs ∧ st'.includedProcs = st.includedProcs ∧
    st'.includedRootProcs = st.includedRootProcs ∧ SameSkeleton st.arena st'.arena := by
  unfold updateKernelExclude at h
  split at h
  · cases h
    exact ⟨rfl, rfl, rfl, rfl, rfl, rfl, rfl, rfl, sameSkeleton_refl st.arena⟩
  · split at h
    · cases h
      exact ⟨rfl, rfl, rfl, rfl, rfl, rfl, rfl, rfl, sameSkeleton_refl st.arena⟩
    · rename_i knid hk
      split at h
      · cases h
      · rename_i ar hw
        cases h
        exact ⟨rfl, rfl, rfl, rfl, rfl, rfl, rfl, rfl,
          markSubtree_skeleton false fuel _ _ _ hw⟩

theorem includedPass_keeps (st : ProcTree) :
    (includedPass st).pidMap = st.pidMap ∧ (includedPass st).cfg = st.cfg ∧
    (includedPass st).nextId = st.nextId ∧
    (includedPass st).cfgRootProcs = st.cfgRootProcs ∧
    (includedPass st).absProcs = st.absProcs ∧
    (includedPass st).absRootProcs = st.absRootProcs ∧
    ∀ n, ((includedPass st).arena n).gops = (st.arena n).gops ∧
         ((includedPass st).arena n).isTombstone = (st.arena n).isTombstone ∧
         ((includedPass st).arena n).isIncluded = (st.arena n).isIncluded ∧
         ((includedPass st).arena n).parentProc = (st.arena n).parentProc ∧
         ((includedPass st).arena n).origParentProc = (st.arena n).origParentProc ∧
         ((includedPass st).arena n).absChildProcs = (st.arena n).absChildProcs := by
  unfold includedPass
  refine foldl_preserve
    (P := fun s : ProcTree => s.pidMap = st.pidMap ∧ s.cfg = st.cfg ∧
      s.nextId = st.nextId ∧ s.cfgRootProcs = st.cfgRootProcs ∧
      s.absProcs = st.absProcs ∧ s.absRootProcs = st.absRootProcs ∧
      ∀ n, (s.arena n).gops = (st.arena n).gops ∧
           (s.arena n).isTombstone = (st.arena n).isTombstone ∧
           (s.arena n).isIncluded = (st.arena n).isIncluded ∧
           (s.arena n).parentProc = (st.arena n).parentProc ∧
           (s.arena n).origParentProc = (st.arena n).origParentProc ∧
           (s.arena n).absChildProcs = (st.arena n).absChildProcs)
    st.absProcs _ _ ?_ ?_
  · exact ⟨rfl, rfl, rfl, rfl, rfl, rfl, fun n => ⟨rfl, rfl, rfl, rfl, rfl, rfl⟩⟩
  intro s a _ hs
  obtain ⟨k1, k2, k3, k4, k5, k6, k7⟩ := hs
  unfold includedPassStep
  dsimp only
  split
  · split
    · rename_i pnid hp
      split
      · refine ⟨k1, k2, k3, k4, k5, k6, ?_⟩
        intro n
        by_cases hn : n = pnid
        · subst hn
          simpa [setNode_arena_same] using k7 n
        · rw [setNode_arena_ne _ _ _ _ hn]
          exact k7 n
      · refine ⟨k1, k2, k3, k4, k5, k6, ?_⟩
        intro n
        by_cases hn : n = pnid
        · subst hn
          simpa [setNode_arena_same] using k7 n
        · rw [setNode_arena_ne _ _ _ _ hn]
          exact k7 n
    · exact ⟨k1, k2, k3, k4, k5, k6, k7⟩
  · exact ⟨k1, k2, k3, k4, k5, k6, k7⟩

theorem sortIncluded_keeps (st : ProcTree) :
    (sortIncluded st).pidMap = st.pidMap ∧ (sortIncluded st).cfg = st.cfg ∧
    (sortIncluded st).nextId = st.nextId ∧
    (sortIncluded st).cfgRootProcs = st.cfgRootProcs ∧
    (sortIncluded st).absProcs = st.absProcs ∧
    (sortIncluded st).absRootProcs = st.absRootProcs ∧
    ∀ n, ((sortIncluded st).arena n).gops = (st.arena n).gops ∧
         ((sortIncluded st).arena n).isTombstone = (st.arena n).isTombstone ∧
         ((sortIncluded st).arena n).isIncluded = (st.arena n).isIncluded ∧
         ((sortIncluded st).arena n).parentProc = (st.arena n).parentProc ∧
         ((sortIncluded st).arena n).origParentProc = (st.arena n).origParentProc ∧
         ((sortIncluded st).arena n).absChildProcs = (st.arena n).absChildProcs := by
  unfold sortIncluded
  dsimp only
  refine foldl_preserve
    (P := fun s : ProcTree => s.pidMap = st.pidMap ∧ s.cfg = st.cfg ∧
      s.nextId = st.nextId ∧ s.cfgRootProcs = st.cfgRootProcs ∧
      s.absProcs = st.absProcs ∧ s.absRootProcs = st.absRootProcs ∧
      ∀ n, (s.arena n).gops = (st.arena n).gops ∧
           (s.arena n).isTombstone = (st.arena n).isTombstone ∧
           (s.arena n).isIncluded = (st.arena n).isIncluded ∧
           (s.arena n).parentProc = (st.arena n).parentProc ∧
           (s.arena n).origParentProc = (st.arena n).origParentProc ∧
           (s.arena n).absChildProcs = (st.arena n).absChildProcs)
    _ _ _ ?_ ?_
  · exact ⟨rfl, rfl, rfl, rfl, rfl, rfl, fun n => ⟨rfl, rfl, rfl, rfl, rfl, rfl⟩⟩
  intro s a _ hs
  obtain ⟨k1, k2, k3, k4, k5, k6, k7⟩ := hs
  refine ⟨k1, k2, k3, k4, k5, k6, ?_⟩
  intro n
  by_cases hn : n = a
  · subst hn
    simpa [sortInclChildStep, setNode_arena_same] using k7 n
  · simpa [sortInclChildStep, setNode_arena_ne _ _ _ _ hn] using k7 n

/-- Structure of a completed (non-enumeration-error) update: the pid map and
the per-node raw data and tombstone flags of the final state are those of the
reconcile/prune phase; the configuration is untouched. -/
theorem lockedUpdate_ok_core (fuel : Nat) (st : ProcTree) (procs : List GProc)
    (prune : Bool) (res : Option String) (st' : ProcTree)
    (h : lockedUpdate fuel st (.ok procs) prune = some (res, st')) :
    st'.pidMap = (updateReconciled st procs prune).pidMap ∧
    st'.cfg = st.cfg ∧
    st'.nextId = (updateReconciled st procs prune).nextId ∧
    ∀ n, (st'.arena n).gops = ((updateReconciled st procs prune).arena n).gops ∧
         (st'.arena n).isTombstone = ((updateReconciled st procs prune).arena n).isTombstone := by
  unfold lockedUpdate at h
  dsimp only at h
  split at h
  · cases h
    exact ⟨rfl, updateReconciled_cfg st procs prune, rfl, fun n => ⟨rfl, rfl⟩⟩
  · rename_i st4 hres
    split at h
    · cases h
    · rename_i st6 hincl
      split at h
      · cases h
      · rename_i st7 hkern
        cases h
        obtain ⟨r1, r2, r3, r4, _⟩ := updateResolve_ok_keeps _ st4 hres
        obtain ⟨b1, b2, b3, _, _, _, b7⟩ := rebuildAbs_keeps st4
        obtain ⟨s1, s2, s3, _, _, _, s7⟩ := sortAllAbs_keeps (rebuildAbs st4)
        obtain ⟨i1, i2, i3, _, _, _, _, _, isk⟩ := updateInclude_keeps fuel _ st6 hincl
        obtain ⟨x1, x2, x3, _, _, _, _, _, xsk⟩ := updateKernelExclude_keeps fuel _ st7 hkern
        obtain ⟨p1, p2, p3, _, _, _, p7⟩ := includedPass_keeps st7
        obtain ⟨q1, q2, q3, _, _, _, q7⟩ := sortIncluded_keeps (includedPass st7)
        refine ⟨?_, ?_, ?_, ?_⟩
        · rw [q1, p1, x1, i1, s1, b1, r1]
        · rw [q2, p2, x2, i2, s2, b2, r2, updateReconciled_cfg]
        · rw [q3, p3, x3, i3, s3, b3, r3]
        · intro n
          obtain ⟨qg, _, _, _, _, _⟩ := q7 n
          obtain ⟨pg, _, _, _, _, _⟩ := p7 n
          obtain ⟨xg, xt, _, _, _, _⟩ := xsk n
          obtain ⟨ig, it, _, _, _, _⟩ := isk n
          obtain ⟨sg, st', _, _, _, _⟩ := s7 n
          obtain ⟨bg, bt, _, _⟩ := b7 n
          obtain ⟨qg2, qt2, _, _, _, _⟩ := q7 n
          obtain ⟨pg2, pt2, _, _, _, _⟩ := p7 n
          constructor
          · rw [qg2, pg2, xg, ig, sg, bg, r4]
          · rw [qt2, pt2, xt, it, st', bt, r4]

/-! ## Claim C5 -/

theorem reconcileOne_cfg (st : ProcTree) (g : GProc) :
    (reconcileOne st g).cfg = st.cfg :=
  (reconcileOne_views st g).1

theorem reconcileFold_cfg (l : List GProc) (st : ProcTree) :
    (l.foldl reconcileOne st).cfg = st.cfg := by
  refine foldl_preserve (P := fun s : ProcTree => s.cfg = st.cfg) l reconcileOne st rfl ?_
  intro s a _ hs
  exact (reconcileOne_cfg s a).trans hs

theorem reconcileOne_tombstone_false (st : ProcTree) (g : GProc) (n : Nat)
    (h : (st.arena n).isTombstone = false) :
    ((reconcileOne st g).arena n).isTombstone = false := by
  unfold reconcileOne
  split
  · split
    · rename_i nid hl
      by_cases hn : n = nid
      · subst hn; simp
      · rw [setNode_arena_ne _ _ _ _ hn]; exact h
    · by_cases hn : n = st.nextId
      · simp [hn, newProcess]
      · simpa [setNode_arena_ne _ _ _ _ hn] using h
  · exact h

theorem lookupPid_filter_keep (m : List (Int × Nat)) (p : Int) (nid : Nat)
    (f : Int × Nat → Bool)
    (h : lookupPid m p = some nid) (hf : f (p, nid) = true) :
    lookupPid (m.filter f) p = some nid := by
  induction m with
  | nil => cases h
  | cons e rest ih =>
    cases e with
    | mk q k =>
      by_cases hq : q = p
      · subst hq
        simp only [lookupPid, if_pos rfl] at h
        cases h
        rw [List.filter_cons, if_pos hf]
        simp [lookupPid]
      · simp only [lookupPid, if_neg hq] at h
        rw [List.filter_cons]
        split
        · simp only [lookupPid, if_neg hq]
          exact ih h
        · exact ih h

/-- Claim C5: for every pid `p` present in the pid map and rediscovered by the
next update's enumeration (by a record the configuration does not skip), the
by-pid lookup yields the same node identity after that update, whatever its
outcome short of enumeration failure: rediscovery refreshes the existing node
and clears its tombstone rather than creating a new one, so even a pruning
update keeps the entry. -/
theorem pidRediscoveryPreservesIdentity (fuel : Nat) (st : ProcTree)
    (procs : List GProc) (prune : Bool) (res : Option String) (st' : ProcTree)
    (p : Int) (nid : Nat) (g : GProc)
    (hbefore : lookupPid st.pidMap p = some nid)
    (hgmem : g ∈ procs) (hgp : g.pid = p)
    (hallow : allowedRec st.cfg g = true)
    (hupd : lockedUpdate fuel st (.ok procs) prune = some (res, st')) :
    lookupPid st'.pidMap p = some nid := by
  obtain ⟨l1, l2, rfl⟩ := List.append_of_mem hgmem
  have hcore := (lockedUpdate_ok_core fuel st _ prune res st' hupd).1
  rw [hcore]
  unfold updateReconciled
  dsimp only
  have hm1 : lookupPid (markAllTombstone st).pidMap p = some nid := by
    rw [markAllTombstone_pidMap]; exact hbefore
  rw [List.foldl_append]
  set smid := l1.foldl reconcileOne (markAllTombstone st) with hsmid
  have hmid : lookupPid smid.pidMap p = some nid :=
    reconcileFold_lookup_some l1 _ p nid hm1
  have hcfgmid : smid.cfg = st.cfg := by
    rw [hsmid, reconcileFold_cfg]
    exact (markAllTombstone_views st).1
  have hafter :
      lookupPid (reconcileOne smid g).pidMap p = some nid ∧
      ((reconcileOne smid g).arena nid).isTombstone = false := by
    unfold reconcileOne
    rw [hcfgmid, hallow, hgp, hmid]
    simp only [if_true]
    constructor
    · simpa using hmid
    · simp
  have hrest :
      lookupPid (l2.foldl reconcileOne (reconcileOne smid g)).pidMap p = some nid ∧
      ((l2.foldl reconcileOne (reconcileOne smid g)).arena nid).isTombstone = false := by
    refine foldl_preserve
      (P := fun s : ProcTree => lookupPid s.pidMap p = some nid ∧
        (s.arena nid).isTombstone = false)
      l2 reconcileOne _ hafter ?_
    intro s a _ hs
    exact ⟨reconcileOne_lookup_some s a p nid hs.1,
      reconcileOne_tombstone_false s a nid hs.2⟩
  rw [List.foldl_cons]
  split
  · unfold prunePass
    refine lookupPid_filter_keep _ p nid _ hrest.1 ?_
    rw [hrest.2]
    rfl
  · exact hrest.1

/-- Witness for claim C5 at a concrete two-update session. -/
theorem pidRediscoveryPreservesIdentityWitness :
    lookupPid c6StA.pidMap 5 = some 1 ∧
    (⟨5, 1, "a"⟩ : GProc) ∈ c6EnumA ∧
    allowedRec c6StA.cfg ⟨5, 1, "a"⟩ = true ∧
    lookupPid c5St.pidMap 5 = some 1 :=
  ⟨by decide, by decide, by decide,
    pidRediscoveryPreservesIdentity 20 c6StA c6EnumA true none c5St 5 1 ⟨5, 1, "a"⟩
      (by decide) (by decide) rfl (by decide) rfl⟩

/-! ## Claim C4 -/

theorem resolveRootsAux_error_of_missing (m : List (Int × Nat)) (pids : List Int)
    (h : ∃ pid ∈ pids, lookupPid m pid = none) :
    ∃ e, resolveRootsAux m pids = .error e := by
  induction pids with
  | nil =>
    rcases h with ⟨pid, hmem, _⟩
    cases hmem
  | cons q rest ih =>
    rcases h with ⟨pid, hmem, hnone⟩
    rcases List.mem_cons.mp hmem with rfl | hmem'
    · refine ⟨"Configured root pid " ++ toString pid ++ " does not exist", ?_⟩
      simp only [resolveRootsAux, hnone]
    · cases hl : lookupPid m q with
      | none =>
        refine ⟨"Configured root pid " ++ toString q ++ " does not exist", ?_⟩
        simp only [resolveRootsAux, hl]
      | some nid =>
        obtain ⟨e, he⟩ := ih ⟨pid, hmem', hnone⟩
        refine ⟨e, ?_⟩
        simp only [resolveRootsAux, hl, he]

/-- Claim C4: when root pids are configured and, while the configured-root
list is still unresolved, some configured pid is missing from the pid map as
reconciled by the current update, the update returns a configuration error and
leaves the configured-root list unresolved (`none`), so resolution is retried
on the next update; during construction, `New` returns the error and no
session is produced. -/
theorem missingConfiguredRoot :
    (∀ (fuel : Nat) (st : ProcTree) (procs : List GProc) (prune : Bool),
      st.cfg.rootPids ≠ [] → st.cfgRootProcs = none →
      (∃ pid ∈ st.cfg.rootPids,
        lookupPid (updateReconciled st procs prune).pidMap pid = none) →
      ∃ msg, lockedUpdate fuel st (.ok procs) prune =
          some (some msg, updateReconciled st procs prune) ∧
        (updateReconciled st procs prune).cfgRootProcs = none) ∧
    (∀ (fuel : Nat) (cfg : Config) (procs : List GProc),
      cfg.rootPids ≠ [] →
      (∃ pid ∈ cfg.rootPids,
        lookupPid (updateReconciled (freshSession cfg) procs false).pidMap pid = none) →
      ∃ msg, NewProcTree fuel cfg (.ok procs) = some (.error msg)) := by
  have part1 : ∀ (fuel : Nat) (st : ProcTree) (procs : List GProc) (prune : Bool),
      st.cfg.rootPids ≠ [] → st.cfgRootProcs = none →
      (∃ pid ∈ st.cfg.rootPids,
        lookupPid (updateReconciled st procs prune).pidMap pid = none) →
      ∃ msg, lockedUpdate fuel st (.ok procs) prune =
          some (some msg, updateReconciled st procs prune) ∧
        (updateReconciled st procs prune).cfgRootProcs = none := by
    intro fuel st procs prune hroots hunres hmissing
    have hcn : (updateReconciled st procs prune).cfgRootProcs = none := by
      rw [updateReconciled_cfgRootProcs]
      exact hunres
    have hfr : fixedRootsOf (updateReconciled st procs prune).cfg = true := by
      rw [updateReconciled_cfg]
      unfold fixedRootsOf
      cases hE : st.cfg.rootPids with
      | nil => exact absurd hE hroots
      | cons a l => rfl
    obtain ⟨e, he⟩ := resolveRootsAux_error_of_missing
      (updateReconciled st procs prune).pidMap
      (updateReconciled st procs prune).cfg.rootPids
      (by rw [updateReconciled_cfg]; exact hmissing)
    have hres : updateResolve (updateReconciled st procs prune) = .error e := by
      unfold updateResolve
      rw [hfr, hcn, he]
      rfl
    refine ⟨e, ?_, hcn⟩
    unfold lockedUpdate
    dsimp only
    rw [hres]
  refine ⟨part1, ?_⟩
  intro fuel cfg procs hroots hmissing
  obtain ⟨msg, hupd, _⟩ := part1 fuel (freshSession cfg) procs false hroots rfl hmissing
  exact ⟨msg, by unfold NewProcTree; rw [hupd]⟩

/-- Witness for claim C4 at the concrete missing-root configuration. -/
theorem missingConfiguredRootWitness :
    c4Cfg.rootPids ≠ [] ∧
    lookupPid (updateReconciled (freshSession c4Cfg) c4Enum false).pidMap 9999 = none ∧
    ∃ msg, NewProcTree 20 c4Cfg (.ok c4Enum) = some (.error msg) :=
  ⟨by decide, by decide,
    missingConfiguredRoot.2 20 c4Cfg c4Enum (by decide) ⟨9999, by decide, by decide⟩⟩

/-! ## Claim C6 -/

theorem nodup_snd_entry_eq {m : List (Int × Nat)}
    (h : (m.map Prod.snd).Nodup) {e1 e2 : Int × Nat}
    (h1 : e1 ∈ m) (h2 : e2 ∈ m) (he : e1.2 = e2.2) : e1 = e2 :=
  List.inj_on_of_nodup_map h h1 h2 he

theorem markAllTombstone_wf (st : ProcTree) (h : WellFormed st) :
    WellFormed (markAllTombstone st) := by
  obtain ⟨h1, h2, h3⟩ := h
  refine ⟨?_, ?_, ?_⟩
  · rw [markAllTombstone_pidMap]; exact h1
  · rw [markAllTombstone_pidMap]; exact h2
  · intro e he
    rw [markAllTombstone_pidMap] at he
    obtain ⟨hlt, hpid⟩ := h3 e he
    refine ⟨?_, ?_⟩
    · rw [(markAllTombstone_views st).2.1]; exact hlt
    · rw [(markAllTombstone_arena_fields st e.2).1]; exact hpid

theorem reconcileOne_wf (st : ProcTree) (g : GProc) (h : WellFormed st) :
    WellFormed (reconcileOne st g) := by
  obtain ⟨h1, h2, h3⟩ := h
  unfold reconcileOne
  split
  · split
    · rename_i nid hl
      refine ⟨h1, h2, ?_⟩
      intro e he
      simp only [setNode_pidMap] at he
      obtain ⟨hlt, hpid⟩ := h3 e he
      refine ⟨hlt, ?_⟩
      by_cases hn : e.2 = nid
      · have hmem : (g.pid, nid) ∈ st.pidMap := lookupPid_mem _ _ _ hl
        have : e = (g.pid, nid) := nodup_snd_entry_eq h2 he hmem hn
        rw [hn, setNode_arena_same]
        rw [this]
      · rw [setNode_arena_ne _ _ _ _ hn]
        exact hpid
    · rename_i hl
      have hnotin : ∀ e ∈ st.pidMap, e.1 ≠ g.pid :=
        (lookupPid_eq_none_iff st.pidMap g.pid).mp hl
      refine ⟨?_, ?_, ?_⟩
      · simp only [List.map_append, List.map_cons, List.map_nil]
        rw [List.nodup_append]
        refine ⟨h1, List.nodup_singleton _, ?_⟩
        intro a ha hb
        simp only [List.mem_singleton] at hb
        subst hb
        obtain ⟨e, he, heq⟩ := List.mem_map.mp ha
        exact hnotin e he heq
      · simp only [List.map_append, List.map_cons, List.map_nil]
        rw [List.nodup_append]
        refine ⟨h2, List.nodup_singleton _, ?_⟩
        intro a ha hb
        simp only [List.mem_singleton] at hb
        subst hb
        obtain ⟨e, he, heq⟩ := List.mem_map.mp ha
        exact Nat.ne_of_lt (h3 e he).1 heq
      · intro e he
        rcases List.mem_append.mp he with he' | he'
        · obtain ⟨hlt, hpid⟩ := h3 e he'
          refine ⟨Nat.lt_succ_of_lt hlt, ?_⟩
          rw [setNode_arena_ne _ _ _ _ (Nat.ne_of_lt hlt)]
          exact hpid
        · simp only [List.mem_singleton] at he'
          subst he'
          refine ⟨Nat.lt_succ_self _, ?_⟩
          rw [setNode_arena_same]
          rfl
  · exact ⟨h1, h2, h3⟩

theorem prunePass_wf (st : ProcTree) (h : WellFormed st) :
    WellFormed (prunePass st) := by
  obtain ⟨h1, h2, h3⟩ := h
  refine ⟨?_, ?_, ?_⟩
  · exact List.Nodup.sublist ((List.filter_sublist _).map Prod.fst) h1
  · exact List.Nodup.sublist ((List.filter_sublist _).map Prod.snd) h2
  · intro e he
    exact h3 e (List.mem_of_mem_filter he)

theorem updateReconciled_wf (st : ProcTree) (procs : List GProc) (prune : Bool)
    (h : WellFormed st) : WellFormed (updateReconciled st procs prune) := by
  unfold updateReconciled
  dsimp only
  have hfold : WellFormed (procs.foldl reconcileOne (markAllTombstone st)) := by
    refine foldl_preserve (P := WellFormed) procs reconcileOne _
      (markAllTombstone_wf st h) ?_
    intro s a _ hs
    exact reconcileOne_wf s a hs
  split
  · exact prunePass_wf _ hfold
  · exact hfold

/-- A completed update (any outcome short of enumeration failure) preserves
session well-formedness. -/
theorem lockedUpdate_wf (fuel : Nat) (st : ProcTree) (procs : List GProc)
    (prune : Bool) (res : Option String) (st' : ProcTree)
    (h : WellFormed st)
    (hupd : lockedUpdate fuel st (.ok procs) prune = some (res, st')) :
    WellFormed st' := by
  obtain ⟨c1, _, c3, c4⟩ := lockedUpdate_ok_core fuel st procs prune res st' hupd
  obtain ⟨h1, h2, h3⟩ := updateReconciled_wf st procs prune h
  refine ⟨?_, ?_, ?_⟩
  · rw [c1]; exact h1
  · rw [c1]; exact h2
  · intro e he
    rw [c1] at he
    obtain ⟨hlt, hpid⟩ := h3 e he
    exact ⟨c3 ▸ hlt, (congrArg GProc.pid (c4 e.2).1).trans hpid⟩

theorem reconcileFold_absent_tombstone (procs : List GProc) (s0 : ProcTree)
    (p : Int) (nid : Nat)
    (habs : ∀ g ∈ procs, g.pid ≠ p)
    (hwf : WellFormed s0)
    (hlook : lookupPid s0.pidMap p = some nid)
    (htomb : (s0.arena nid).isTombstone = true) :
    WellFormed (procs.foldl reconcileOne s0) ∧
    lookupPid (procs.foldl reconcileOne s0).pidMap p = some nid ∧
    ((procs.foldl reconcileOne s0).arena nid).isTombstone = true := by
  refine foldl_preserve
    (P := fun s : ProcTree => WellFormed s ∧ lookupPid s.pidMap p = some nid ∧
      (s.arena nid).isTombstone = true)
    procs reconcileOne s0 ⟨hwf, hlook, htomb⟩ ?_
  intro s a hmem hs
  obtain ⟨hswf, hsl, hst⟩ := hs
  refine ⟨reconcileOne_wf s a hswf, reconcileOne_lookup_some s a p nid hsl, ?_⟩
  unfold reconcileOne
  split
  · split
    · rename_i m hl
      have hmemm : (a.pid, m) ∈ s.pidMap := lookupPid_mem _ _ _ hl
      have hmemp : (p, nid) ∈ s.pidMap := lookupPid_mem _ _ _ hsl
      have hne : nid ≠ m := by
        intro hEq
        have hent : (p, nid) = (a.pid, m) :=
          nodup_snd_entry_eq hswf.2.1 hmemp hmemm hEq
        exact habs a hmem (congrArg Prod.fst hent).symm
      rw [setNode_arena_ne _ _ _ _ hne]
      exact hst
    · have hmemp : (p, nid) ∈ s.pidMap := lookupPid_mem _ _ _ hsl
      have hlt : nid < s.nextId := (hswf.2.2 (p, nid) hmemp).1
      simpa [setNode_arena_ne _ _ _ _ (Nat.ne_of_lt hlt)] using hst
  · exact hst

theorem lookupPid_filter_drop (m : List (Int × Nat)) (p : Int) (nid : Nat)
    (f : Int × Nat → Bool)
    (hkeys : (m.map Prod.fst).Nodup)
    (h : lookupPid m p = some nid) (hf : f (p, nid) = false) :
    lookupPid (m.filter f) p = none := by
  induction m with
  | nil => cases h
  | cons e rest ih =>
    cases e with
    | mk q k =>
      rw [List.map_cons, List.nodup_cons] at hkeys
      by_cases hq : q = p
      · subst hq
        simp only [lookupPid, if_pos rfl] at h
        cases h
        rw [List.filter_cons]
        simp only [hf]
        rw [if_neg (by simp)]
        refine (lookupPid_eq_none_iff _ _).mpr ?_
        intro e2 he2 hE
        have hmm : e2.1 ∈ rest.map Prod.fst :=
          List.mem_map_of_mem Prod.fst (List.mem_of_mem_filter he2)
        rw [hE] at hmm
        exact hkeys.1 hmm
      · simp only [lookupPid, if_neg hq] at h
        rw [List.filter_cons]
        split
        · simp only [lookupPid, if_neg hq]
          exact ih hkeys.2 h
        · exact ih hkeys.2 h

/-- Claim C6 counterexample: pid 5 vanishes between update A and update B (no
prune).  After B the node is still addressable and marked tombstone, but its
last-known parent link is not cleared: it still points at the pid-1 node, and
it still appears in that node's rebuilt child list — the claim's "parent and
children structure is cleared" is false. -/
theorem tombstoneStructureNotClearedCounterexample :
    NewProcTree 20 cfgDefault (.ok c6EnumA) = some (.ok c6StA) ∧
    lockedUpdate 20 c6StA (.ok c6EnumB) false = some (none, c6StB) ∧
    lookupPid c6StB.pidMap 5 = some 1 ∧
    (c6StB.arena 1).isTombstone = true ∧
    (c6StB.arena 1).parentProc = some 0 ∧
    (c6StB.arena 0).gops.pid = 1 ∧
    (1 : Nat) ∈ (c6StB.arena 0).absChildProcs :=
  ⟨rfl, rfl, by decide, by decide, by decide, by decide, by decide⟩

/-- Claim C6 (amended): if pid `p` is in the pid map and update B's enumeration
lacks `p` (`pruneTombstones = false`), then after B the by-pid lookup of `p`
still returns the same node, now marked tombstone — its child lists were
cleared at the start of the update and rebuilt from the surviving records, and
its parent link is re-resolved rather than cleared.  A subsequent update C
with `pruneTombstones = true` while `p` is still absent makes the lookup
return not-found. -/
theorem tombstoneLifecycle (fuelB fuelC : Nat) (st stB stC : ProcTree)
    (procsB procsC : List GProc) (resB resC : Option String)
    (p : Int) (nid : Nat)
    (hwf : WellFormed st)
    (hbefore : lookupPid st.pidMap p = some nid)
    (habsB : ∀ g ∈ procsB, g.pid ≠ p)
    (hB : lockedUpdate fuelB st (.ok procsB) false = some (resB, stB))
    (habsC : ∀ g ∈ procsC, g.pid ≠ p)
    (hC : lockedUpdate fuelC stB (.ok procsC) true = some (resC, stC)) :
    lookupPid stB.pidMap p = some nid ∧
    (stB.arena nid).isTombstone = true ∧
    lookupPid stC.pidMap p = none := by
  have hmem : (p, nid) ∈ st.pidMap := lookupPid_mem _ _ _ hbefore
  have hmarked := markAllTombstone_marks st (p, nid) hmem
  have hm1look : lookupPid (markAllTombstone st).pidMap p = some nid := by
    rw [markAllTombstone_pidMap]; exact hbefore
  obtain ⟨wB, lB, tB⟩ := reconcileFold_absent_tombstone procsB (markAllTombstone st)
    p nid habsB (markAllTombstone_wf st hwf) hm1look hmarked.1
  have hreconB : updateReconciled st procsB false =
      procsB.foldl reconcileOne (markAllTombstone st) := rfl
  obtain ⟨cB1, _, _, cB4⟩ := lockedUpdate_ok_core fuelB st procsB false resB stB hB
  have hBlook : lookupPid stB.pidMap p = some nid := by
    rw [cB1, hreconB]; exact lB
  have hBtomb : (stB.arena nid).isTombstone = true := by
    rw [(cB4 nid).2, hreconB]; exact tB
  refine ⟨hBlook, hBtomb, ?_⟩
  have hwfB : WellFormed stB := lockedUpdate_wf fuelB st procsB false resB stB hwf hB
  have hmemB : (p, nid) ∈ stB.pidMap := lookupPid_mem _ _ _ hBlook
  have hmarkedB := markAllTombstone_marks stB (p, nid) hmemB
  have hm1lookB : lookupPid (markAllTombstone stB).pidMap p = some nid := by
    rw [markAllTombstone_pidMap]; exact hBlook
  obtain ⟨wC, lC, tC⟩ := reconcileFold_absent_tombstone procsC (markAllTombstone stB)
    p nid habsC (markAllTombstone_wf stB hwfB) hm1lookB hmarkedB.1
  obtain ⟨cC1, _, _, _⟩ := lockedUpdate_ok_core fuelC stB procsC true resC stC hC
  rw [cC1]
  have hreconC : updateReconciled stB procsC true =
      prunePass (procsC.foldl reconcileOne (markAllTombstone stB)) := rfl
  rw [hreconC]
  unfold prunePass
  exact lookupPid_filter_drop _ p nid _ wC.1 lC (by rw [tC]; rfl)

/-- Witness for claim C6 at the concrete vanish-then-prune session. -/
theorem tombstoneLifecycleWitness :
    WellFormed c6StA ∧
    lookupPid c6StA.pidMap 5 = some 1 ∧
    (∀ g ∈ c6EnumB, g.pid ≠ 5) ∧
    lookupPid c6StB.pidMap 5 = some 1 ∧
    (c6StB.arena 1).isTombstone = true ∧
    lookupPid c6StC.pidMap 5 = none :=
  ⟨by decide, by decide, by decide,
    tombstoneLifecycle 20 20 c6StA c6StB c6StC c6EnumB c6EnumB none none 5 1
      (by decide) (by decide) (by decide) rfl (by decide) rfl⟩

/-! ## Claim C3 -/

theorem allowedRec_no_kernel (cfg : Config) (g : GProc)
    (hk : cfg.includeKernelThreads = false)
    (h : allowedRec cfg g = true) : g.pid ≠ 2 ∧ g.ppid ≠ 2 := by
  unfold allowedRec at h
  rw [hk] at h
  simp only [Bool.false_or, Bool.and_eq_true, bne_iff_ne] at h
  exact h

theorem reconcileFold_no_kernel (procs : List GProc) (st : ProcTree)
    (hk : st.cfg.includeKernelThreads = false)
    (hmap : ∀ e ∈ st.pidMap, (st.arena e.2).gops.pid ≠ 2 ∧
      (st.arena e.2).gops.ppid ≠ 2 ∧ e.1 ≠ 2) :
    (∀ e ∈ (procs.foldl reconcileOne st).pidMap,
      ((procs.foldl reconcileOne st).arena e.2).gops.pid ≠ 2 ∧
      ((procs.foldl reconcileOne st).arena e.2).gops.ppid ≠ 2 ∧ e.1 ≠ 2) ∧
    (∀ n, ((procs.foldl reconcileOne st).arena n).gops = (st.arena n).gops ∨
      (((procs.foldl reconcileOne st).arena n).gops.pid ≠ 2 ∧
       ((procs.foldl reconcileOne st).arena n).gops.ppid ≠ 2)) := by
  have hmain := foldl_preserve
    (P := fun s : ProcTree => s.cfg = st.cfg ∧
      (∀ e ∈ s.pidMap, (s.arena e.2).gops.pid ≠ 2 ∧
        (s.arena e.2).gops.ppid ≠ 2 ∧ e.1 ≠ 2) ∧
      (∀ n, (s.arena n).gops = (st.arena n).gops ∨
        ((s.arena n).gops.pid ≠ 2 ∧ (s.arena n).gops.ppid ≠ 2)))
    procs reconcileOne st ⟨rfl, hmap, fun n => Or.inl rfl⟩ ?_
  · exact ⟨hmain.2.1, hmain.2.2⟩
  intro s a _ hs
  obtain ⟨hcfg, hent, hgops⟩ := hs
  refine ⟨(reconcileOne_cfg s a).trans hcfg, ?_, ?_⟩
  · intro e he
    unfold reconcileOne at he ⊢
    split at he
    · rename_i hallow
      have ha2 : a.pid ≠ 2 ∧ a.ppid ≠ 2 :=
        allowedRec_no_kernel s.cfg a (by rw [hcfg]; exact hk) hallow
      split at he
      · rename_i m hl
        simp only [setNode_pidMap] at he
        simp only [hallow, if_true, hl]
        by_cases hn : e.2 = m
        · rw [hn, setNode_arena_same]
          exact ⟨ha2.1, ha2.2, (hent e he).2.2⟩
        · rw [setNode_arena_ne _ _ _ _ hn]
          exact hent e he
      · rename_i hl
        simp only [hallow, if_true, hl]
        rcases List.mem_append.mp he with he' | he'
        · by_cases hn : e.2 = s.nextId
          · rw [hn]
            simp only [setNode_arena_same]
            exact ⟨ha2.1, ha2.2, (hent e he').2.2⟩
          · rw [setNode_arena_ne _ _ _ _ hn]
            exact hent e he'
        · simp only [List.mem_singleton] at he'
          subst he'
          simp only [setNode_arena_same]
          exact ⟨ha2.1, ha2.2, ha2.1⟩
    · rename_i hallow
      simp only [hallow, if_false]
      exact hent e he
  · intro n
    unfold reconcileOne
    split
    · rename_i hallow
      have ha2 : a.pid ≠ 2 ∧ a.ppid ≠ 2 :=
        allowedRec_no_kernel s.cfg a (by rw [hcfg]; exact hk) hallow
      split
      · rename_i m hl
        by_cases hn : n = m
        · rw [hn, setNode_arena_same]
          exact Or.inr ⟨ha2.1, ha2.2⟩
        · rw [setNode_arena_ne _ _ _ _ hn]
          exact hgops n
      · by_cases hn : n = s.nextId
        · rw [hn]
          simp only [setNode_arena_same]
          exact Or.inr ⟨ha2.1, ha2.2⟩
        · rw [setNode_arena_ne _ _ _ _ hn]
          exact hgops n
    · exact hgops n

theorem rebuildOne_absProcs (s : ProcTree) (a : Int × Nat) :
    (rebuildOne s a).absProcs = s.absProcs ++ [a.2] := by
  unfold rebuildOne
  dsimp only
  split <;> rfl

theorem rebuildAbs_absProcs_src (st : ProcTree) :
    ∀ x ∈ (rebuildAbs st).absProcs, ∃ e ∈ st.pidMap, e.2 = x := by
  unfold rebuildAbs
  refine foldl_preserve
    (P := fun s : ProcTree => ∀ x ∈ s.absProcs, ∃ e ∈ st.pidMap, e.2 = x)
    st.pidMap rebuildOne _ ?_ ?_
  · intro x hx
    exact absurd hx (List.not_mem_nil x)
  intro s a ha hs x hx
  rw [rebuildOne_absProcs] at hx
  rcases List.mem_append.mp hx with h' | h'
  · exact hs x h'
  · simp only [List.mem_singleton] at h'
    exact ⟨a, ha, h'.symm⟩

theorem sortAllAbs_absProcs (st : ProcTree) :
    (sortAllAbs st).absProcs = sortNidsByPid st.arena st.absProcs := by
  unfold sortAllAbs
  dsimp only
  refine foldl_preserve
    (P := fun s : ProcTree => s.absProcs = sortNidsByPid st.arena st.absProcs)
    _ _ _ rfl ?_
  intro s a _ hs
  simpa using hs

theorem includedPassStep_includedProcs (s : ProcTree) (a : Nat) :
    (includedPassStep s a).includedProcs = s.includedProcs ++ [a] ∨
    (includedPassStep s a).includedProcs = s.includedProcs := by
  unfold includedPassStep
  dsimp only
  split
  · split
    · split
      · exact Or.inl rfl
      · exact Or.inl rfl
    · exact Or.inl rfl
  · exact Or.inr rfl

theorem includedPass_included_sub (st : ProcTree) :
    ∀ x ∈ (includedPass st).includedProcs, x ∈ st.absProcs := by
  unfold includedPass
  refine foldl_preserve
    (P := fun s : ProcTree => ∀ x ∈ s.includedProcs, x ∈ st.absProcs)
    st.absProcs includedPassStep _ ?_ ?_
  · intro x hx
    exact absurd hx (List.not_mem_nil x)
  intro s a ha hs x hx
  rcases includedPassStep_includedProcs s a with hstep | hstep
  · rw [hstep] at hx
    rcases List.mem_append.mp hx with h' | h'
    · exact hs x h'
    · simp only [List.mem_singleton] at h'
      exact h' ▸ ha
  · rw [hstep] at hx
    exact hs x hx

theorem sortIncluded_includedProcs (st : ProcTree) :
    (sortIncluded st).includedProcs = sortNidsByPid st.arena st.includedProcs := by
  unfold sortIncluded
  dsimp only
  refine foldl_preserve
    (P := fun s : ProcTree => s.includedProcs = sortNidsByPid st.arena st.includedProcs)
    _ _ _ rfl ?_
  intro s a _ hs
  simpa using hs

theorem updateReconciled_includedProcs (st : ProcTree) (procs : List GProc) (prune : Bool) :
    (updateReconciled st procs prune).includedProcs = st.includedProcs := by
  unfold updateReconciled
  dsimp only
  have h2 : (procs.foldl reconcileOne (markAllTombstone st)).includedProcs =
      st.includedProcs := by
    refine foldl_preserve
      (P := fun s : ProcTree => s.includedProcs = st.includedProcs)
      procs reconcileOne _ ((markAllTombstone_views st).2.2.2.2.2.1) ?_
    intro s a _ hs
    exact (reconcileOne_views s a).2.2.2.2.1.trans hs
  split
  · exact h2
  · exact h2

theorem updateReconciled_arena (st : ProcTree) (procs : List GProc) (prune : Bool) :
    (updateReconciled st procs prune).arena =
      (procs.foldl reconcileOne (markAllTombstone st)).arena := by
  unfold updateReconciled
  dsimp only
  split <;> rfl

/-- Where the included-node list of a completed update comes from: either the
update failed before the inclusion passes (the list is the stale one), or
every included node is a pid-map entry of the reconciled map. -/
theorem lockedUpdate_processes_src (fuel : Nat) (st : ProcTree) (procs : List GProc)
    (prune : Bool) (res : Option String) (st' : ProcTree)
    (h : lockedUpdate fuel st (.ok procs) prune = some (res, st')) :
    st'.includedProcs = st.includedProcs ∨
    ∀ nid ∈ st'.includedProcs,
      ∃ e ∈ (updateReconciled st procs prune).pidMap, e.2 = nid := by
  unfold lockedUpdate at h
  dsimp only at h
  split at h
  · cases h
    exact Or.inl (updateReconciled_includedProcs st procs prune)
  · rename_i st4 hres
    split at h
    · cases h
    · rename_i st6 hincl
      split at h
      · cases h
      · rename_i st7 hkern
        cases h
        right
        intro nid hnid
        rw [sortIncluded_includedProcs, mem_sortNidsByPid] at hnid
        have h1 : nid ∈ st7.absProcs := includedPass_included_sub st7 nid hnid
        rw [(updateKernelExclude_keeps _ _ _ hkern).2.2.2.2.1] at h1
        rw [(updateInclude_keeps _ _ _ hincl).2.2.2.2.1] at h1
        rw [sortAllAbs_absProcs, mem_sortNidsByPid] at h1
        obtain ⟨e, he, he2⟩ := rebuildAbs_absProcs_src st4 nid h1
        rw [(updateResolve_ok_keeps _ st4 hres).1] at he
        exact ⟨e, he, he2⟩

/-- Claim C3 counterexample: with `includeKernelThreads = false` and configured
roots `[5, 9]`, root 5 is a raw-record ancestor of pid 2, yet node 9 — a raw
transitive descendant of pid 2 — is included in `Processes()`.  Not every
descendant of pid 2 is excluded, and the configured-root hypothesis of the
claim is satisfied. -/
theorem kernelExclusionPrecedenceCounterexample :
    NewProcTree 20 c3Cfg (.ok c3Enum) = some (.ok c3St) ∧
    c3Cfg.includeKernelThreads = false ∧
    (5 : Int) ∈ c3Cfg.rootPids ∧
    rawReachesUp 5 c3Enum 2 5 = true ∧
    rawDescOf2 5 c3Enum 9 = true ∧
    lookupPid c3St.pidMap 9 = some 1 ∧
    (1 : Nat) ∈ Processes c3St ∧
    lookupPid c3St.pidMap 2 = none :=
  ⟨rfl, by decide, by decide, by decide, by decide, by decide, by decide, by decide⟩

/-- Claim C3 (amended): under `includeKernelThreads = false` the exclusion of
kernel threads comes entirely from the reconcile-time skip of records with
pid 2 or parent pid 2.  The fresh session has no trace of pid 2, every update
preserves this (no node with pid 2 or last-known parent pid 2 ever enters the
pid map or the included view, and the pid-2 lookup that guards the last-pass
exclusion walk always fails), but deeper raw descendants of pid 2 can appear
in `Processes()` even when a configured root is an ancestor of pid 2 (see the
counterexample). -/
theorem kernelExclusionByReconcileSkip :
    (∀ cfg : Config, NoKernelNodes (freshSession cfg)) ∧
    (∀ (fuel : Nat) (st : ProcTree) (procs : List GProc) (prune : Bool)
        (res : Option String) (st' : ProcTree),
      st.cfg.includeKernelThreads = false →
      NoKernelNodes st →
      lockedUpdate fuel st (.ok procs) prune = some (res, st') →
      NoKernelNodes st' ∧
      lookupPid st'.pidMap 2 = none ∧
      ∀ nid ∈ Processes st',
        (st'.arena nid).gops.pid ≠ 2 ∧ (st'.arena nid).gops.ppid ≠ 2) := by
  constructor
  · intro cfg
    exact ⟨fun e he => absurd he (List.not_mem_nil e),
      fun nid h => absurd h (List.not_mem_nil nid)⟩
  intro fuel st procs prune res st' hk hnk hupd
  obtain ⟨c1, _, _, c4⟩ := lockedUpdate_ok_core fuel st procs prune res st' hupd
  have hmap1 : ∀ e ∈ (markAllTombstone st).pidMap,
      ((markAllTombstone st).arena e.2).gops.pid ≠ 2 ∧
      ((markAllTombstone st).arena e.2).gops.ppid ≠ 2 ∧ e.1 ≠ 2 := by
    intro e he
    rw [markAllTombstone_pidMap] at he
    rw [(markAllTombstone_arena_fields st e.2).1]
    exact hnk.1 e he
  have hk1 : (markAllTombstone st).cfg.includeKernelThreads = false := by
    rw [(markAllTombstone_views st).1]
    exact hk
  obtain ⟨hfold, hgops⟩ := reconcileFold_no_kernel procs (markAllTombstone st) hk1 hmap1
  have hmap3 : ∀ e ∈ (updateReconciled st procs prune).pidMap,
      ((updateReconciled st procs prune).arena e.2).gops.pid ≠ 2 ∧
      ((updateReconciled st procs prune).arena e.2).gops.ppid ≠ 2 ∧ e.1 ≠ 2 := by
    intro e he
    rw [updateReconciled_arena]
    unfold updateReconciled at he
    dsimp only at he
    revert he
    split
    · intro he
      exact hfold e (List.mem_of_mem_filter he)
    · intro he
      exact hfold e he
  have hgops3 : ∀ n, ((updateReconciled st procs prune).arena n).gops =
      (st.arena n).gops ∨
      (((updateReconciled st procs prune).arena n).gops.pid ≠ 2 ∧
       ((updateReconciled st procs prune).arena n).gops.ppid ≠ 2) := by
    intro n
    rw [updateReconciled_arena]
    rcases hgops n with hl | hr
    · left
      rw [hl, (markAllTombstone_arena_fields st n).1]
    · exact Or.inr hr
  have hpart1 : ∀ e ∈ st'.pidMap, (st'.arena e.2).gops.pid ≠ 2 ∧
      (st'.arena e.2).gops.ppid ≠ 2 ∧ e.1 ≠ 2 := by
    intro e he
    rw [c1] at he
    obtain ⟨x1, x2, x3⟩ := hmap3 e he
    exact ⟨ne_of_eq_of_ne (congrArg GProc.pid (c4 e.2).1) x1,
      ne_of_eq_of_ne (congrArg GProc.ppid (c4 e.2).1) x2, x3⟩
  have hpart2 : ∀ nid ∈ st'.includedProcs,
      (st'.arena nid).gops.pid ≠ 2 ∧ (st'.arena nid).gops.ppid ≠ 2 := by
    intro nid hnid
    rcases lockedUpdate_processes_src fuel st procs prune res st' hupd with hsrc | hsrc
    · rw [hsrc] at hnid
      have hold := hnk.2 nid hnid
      rcases hgops3 nid with hl | hr
      · constructor
        · rw [(congrArg GProc.pid (c4 nid).1), congrArg GProc.pid hl]
          exact hold.1
        · rw [(congrArg GProc.ppid (c4 nid).1), congrArg GProc.ppid hl]
          exact hold.2
      · exact ⟨ne_of_eq_of_ne (congrArg GProc.pid (c4 nid).1) hr.1,
          ne_of_eq_of_ne (congrArg GProc.ppid (c4 nid).1) hr.2⟩
    · obtain ⟨e, he, rfl⟩ := hsrc nid hnid
      have := hmap3 e he
      exact ⟨ne_of_eq_of_ne (congrArg GProc.pid (c4 e.2).1) this.1,
        ne_of_eq_of_ne (congrArg GProc.ppid (c4 e.2).1) this.2.1⟩
  refine ⟨⟨hpart1, hpart2⟩, ?_, hpart2⟩
  rw [c1]
  refine (lookupPid_eq_none_iff _ _).mpr ?_
  intro e he
  exact (hmap3 e he).2.2

/-- Witness for the amended C3 theorem at the concrete two-root session. -/
theorem kernelExclusionByReconcileSkipWitness :
    (freshSession c3Cfg).cfg.includeKernelThreads = false ∧
    NoKernelNodes (freshSession c3Cfg) ∧
    NoKernelNodes c3St ∧ lookupPid c3St.pidMap 2 = none :=
  ⟨rfl, by decide,
    (kernelExclusionByReconcileSkip.2 20 (freshSession c3Cfg) c3Enum false none c3St
      rfl (kernelExclusionByReconcileSkip.1 c3Cfg) rfl).1,
    (kernelExclusionByReconcileSkip.2 20 (freshSession c3Cfg) c3Enum false none c3St
      rfl (kernelExclusionByReconcileSkip.1 c3Cfg) rfl).2.1⟩

/-! ## Claim C9 -/

theorem insertByPid_congr (ar1 ar2 : Nat → Process)
    (h : ∀ n, (ar1 n).gops.pid = (ar2 n).gops.pid) (x : Nat) (l : List Nat) :
    insertByPid ar1 x l = insertByPid ar2 x l := by
  induction l with
  | nil => rfl
  | cons y ys ih =>
    simp only [insertByPid, h x, h y, ih]

theorem sortNidsByPid_congr (ar1 ar2 : Nat → Process)
    (h : ∀ n, (ar1 n).gops.pid = (ar2 n).gops.pid) (l : List Nat) :
    sortNidsByPid ar1 l = sortNidsByPid ar2 l := by
  induction l with
  | nil => rfl
  | cons x xs ih =>
    simp only [sortNidsByPid, ih, insertByPid_congr ar1 ar2 h]

theorem pairwise_le_congr (ar1 ar2 : Nat → Process) (l : List Nat)
    (h : ∀ n, (ar1 n).gops.pid = (ar2 n).gops.pid)
    (hp : l.Pairwise (fun a b => (ar1 a).gops.pid ≤ (ar1 b).gops.pid)) :
    l.Pairwise (fun a b => (ar2 a).gops.pid ≤ (ar2 b).gops.pid) :=
  hp.imp (fun hab => by rwa [h _, h _] at hab)

theorem strictByPid_of_sorted (ar : Nat → Process) (l : List Nat)
    (hs : l.Pairwise (fun a b => (ar a).gops.pid ≤ (ar b).gops.pid))
    (hnd : (l.map (fun n => (ar n).gops.pid)).Nodup) :
    StrictByPid ar l :=
  pairwise_lt_of_le_nodup (fun n => (ar n).gops.pid) l hs hnd

theorem map_pid_eq_keys (m : List (Int × Nat)) (ar : Nat → Process)
    (hcons : ∀ e ∈ m, (ar e.2).gops.pid = e.1) :
    (m.map Prod.snd).map (fun n => (ar n).gops.pid) = m.map Prod.fst := by
  induction m with
  | nil => rfl
  | cons e rest ih =>
    simp only [List.map_cons]
    rw [hcons e (List.mem_cons_self e rest),
      ih (fun e' he' => hcons e' (List.mem_cons_of_mem e he'))]

theorem nodup_pid_of_sublist_perm (ar : Nat → Process) (m : List (Int × Nat))
    (l L : List Nat)
    (hcons : ∀ e ∈ m, (ar e.2).gops.pid = e.1)
    (hkeys : (m.map Prod.fst).Nodup)
    (hsub : l.Sublist L) (hperm : List.Perm L (m.map Prod.snd)) :
    (l.map (fun n => (ar n).gops.pid)).Nodup := by
  have h1 : List.Perm (L.map (fun n => (ar n).gops.pid))
      ((m.map Prod.snd).map (fun n => (ar n).gops.pid)) := hperm.map _
  rw [map_pid_eq_keys m ar hcons] at h1
  exact List.Nodup.sublist (hsub.map _) (h1.nodup_iff.mpr hkeys)

theorem rebuildFold_absProcs :
    ∀ (m : List (Int × Nat)) (s0 : ProcTree),
      (m.foldl rebuildOne s0).absProcs = s0.absProcs ++ m.map Prod.snd := by
  intro m
  induction m with
  | nil => intro s0; simp
  | cons e rest ih =>
    intro s0
    rw [List.foldl_cons, ih, rebuildOne_absProcs]
    simp

theorem includedPassStep_includedRootProcs (s : ProcTree) (a : Nat) :
    (includedPassStep s a).includedRootProcs = s.includedRootProcs ++ [a] ∨
    (includedPassStep s a).includedRootProcs = s.includedRootProcs := by
  unfold includedPassStep
  dsimp only
  split
  · split
    · split
      · exact Or.inl rfl
      · exact Or.inr rfl
    · exact Or.inl rfl
  · exact Or.inr rfl

theorem includedPassStep_childlist (s : ProcTree) (a m : Nat) :
    ((includedPassStep s a).arena m).includedChildProcs =
      (s.arena m).includedChildProcs ++ [a] ∨
    ((includedPassStep s a).arena m).includedChildProcs =
      (s.arena m).includedChildProcs := by
  unfold includedPassStep
  dsimp only
  split
  · split
    · rename_i pnid hp
      have harena : ∀ st2 : ProcTree,
          st2.arena = Function.update s.arena pnid
            { s.arena pnid with
                includedChildProcs := (s.arena pnid).includedChildProcs ++ [a] } →
          (st2.arena m).includedChildProcs = (s.arena m).includedChildProcs ++ [a] ∨
          (st2.arena m).includedChildProcs = (s.arena m).includedChildProcs := by
        intro st2 hst2
        rw [hst2]
        by_cases hm : m = pnid
        · subst hm
          rw [Function.update_same]
          exact Or.inl rfl
        · rw [Function.update_noteq hm]
          exact Or.inr rfl
      · split
        · exact harena _ rfl
        · exact harena _ rfl
    · exact Or.inr rfl
  · exact Or.inr rfl

theorem includedPassFold_included :
    ∀ (l : List Nat) (s0 : ProcTree),
      ∃ t, (l.foldl includedPassStep s0).includedProcs = s0.includedProcs ++ t ∧
        t.Sublist l := by
  intro l
  induction l with
  | nil => intro s0; exact ⟨[], by simp, List.nil_sublist []⟩
  | cons a rest ih =>
    intro s0
    rw [List.foldl_cons]
    obtain ⟨t, ht, hsub⟩ := ih (includedPassStep s0 a)
    rcases includedPassStep_includedProcs s0 a with hstep | hstep
    · exact ⟨a :: t, by rw [ht, hstep]; simp, hsub.cons₂ a⟩
    · exact ⟨t, by rw [ht, hstep], hsub.cons a⟩

theorem includedPassFold_includedRoots :
    ∀ (l : List Nat) (s0 : ProcTree),
      ∃ t, (l.foldl includedPassStep s0).includedRootProcs =
          s0.includedRootProcs ++ t ∧ t.Sublist l := by
  intro l
  induction l with
  | nil => intro s0; exact ⟨[], by simp, List.nil_sublist []⟩
  | cons a rest ih =>
    intro s0
    rw [List.foldl_cons]
    obtain ⟨t, ht, hsub⟩ := ih (includedPassStep s0 a)
    rcases includedPassStep_includedRootProcs s0 a with hstep | hstep
    · exact ⟨a :: t, by rw [ht, hstep]; simp, hsub.cons₂ a⟩
    · exact ⟨t, by rw [ht, hstep], hsub.cons a⟩

theorem includedPassFold_childlist :
    ∀ (l : List Nat) (s0 : ProcTree) (m : Nat),
      ∃ t, ((l.foldl includedPassStep s0).arena m).includedChildProcs =
          (s0.arena m).includedChildProcs ++ t ∧ t.Sublist l := by
  intro l
  induction l with
  | nil => intro s0 m; exact ⟨[], by simp, List.nil_sublist []⟩
  | cons a rest ih =>
    intro s0 m
    rw [List.foldl_cons]
    obtain ⟨t, ht, hsub⟩ := ih (includedPassStep s0 a) m
    rcases includedPassStep_childlist s0 a m with hstep | hstep
    · exact ⟨a :: t, by rw [ht, hstep]; simp, hsub.cons₂ a⟩
    · exact ⟨t, by rw [ht, hstep], hsub.cons a⟩

theorem sortInclChildStep_arena_ne (s : ProcTree) (a n : Nat) (h : n ≠ a) :
    (sortInclChildStep s a).arena n = s.arena n := by
  unfold sortInclChildStep
  exact setNode_arena_ne _ _ _ _ h

theorem sortInclChildStep_gops (s : ProcTree) (a n : Nat) :
    ((sortInclChildStep s a).arena n).gops = (s.arena n).gops := by
  unfold sortInclChildStep
  by_cases h : n = a
  · subst h; simp
  · rw [setNode_arena_ne _ _ _ _ h]

theorem sortInclFold_arena_untouched :
    ∀ (l : List Nat) (s : ProcTree) (n : Nat), n ∉ l →
      ((l.foldl sortInclChildStep s).arena n) = s.arena n := by
  intro l
  induction l with
  | nil => intro s n _; rfl
  | cons a rest ih =>
    intro s n hn
    rw [List.foldl_cons]
    rw [ih _ n (fun h => hn (List.mem_cons_of_mem a h))]
    exact sortInclChildStep_arena_ne s a n (fun h => hn (h ▸ List.mem_cons_self a rest))

theorem sortInclFold_childlist :
    ∀ (l : List Nat) (s : ProcTree) (nid : Nat), nid ∈ l → l.Nodup →
      ((l.foldl sortInclChildStep s).arena nid).includedChildProcs =
        sortNidsByPid s.arena ((s.arena nid).includedChildProcs) := by
  intro l
  induction l with
  | nil => intro s nid h _; cases h
  | cons a rest ih =>
    intro s nid hmem hnd
    rw [List.foldl_cons]
    rw [List.nodup_cons] at hnd
    rcases List.mem_cons.mp hmem with rfl | hmem'
    · rw [sortInclFold_arena_untouched rest _ nid hnd.1]
      unfold sortInclChildStep
      rw [setNode_arena_same]
    · have hne : nid ≠ a := fun h => hnd.1 (h ▸ hmem')
      rw [ih _ nid hmem' hnd.2, sortInclChildStep_arena_ne s a nid hne,
        sortNidsByPid_congr _ s.arena
          (fun n => congrArg GProc.pid (sortInclChildStep_gops s a n))]

theorem sortIncluded_includedRootProcs (st : ProcTree) :
    (sortIncluded st).includedRootProcs =
      sortNidsByPid st.arena st.includedRootProcs := by
  unfold sortIncluded
  dsimp only
  refine foldl_preserve
    (P := fun s : ProcTree => s.includedRootProcs =
      sortNidsByPid st.arena st.includedRootProcs)
    _ _ _ rfl ?_
  intro s a _ hs
  simpa [sortInclChildStep] using hs

theorem sortIncluded_childlist (st : ProcTree) (nid : Nat)
    (hmem : nid ∈ st.absProcs) (hnd : st.absProcs.Nodup) :
    ((sortIncluded st).arena nid).includedChildProcs =
      sortNidsByPid st.arena ((st.arena nid).includedChildProcs) := by
  unfold sortIncluded
  dsimp only
  exact sortInclFold_childlist st.absProcs _ nid hmem hnd

theorem updateReconciled_children (st : ProcTree) (procs : List GProc) (prune : Bool) :
    ∀ e ∈ (updateReconciled st procs prune).pidMap,
      ((updateReconciled st procs prune).arena e.2).absChildProcs = [] ∧
      ((updateReconciled st procs prune).arena e.2).includedChildProcs = [] := by
  have hfold : ∀ e ∈ (procs.foldl reconcileOne (markAllTombstone st)).pidMap,
      ((procs.foldl reconcileOne (markAllTombstone st)).arena e.2).absChildProcs = [] ∧
      ((procs.foldl reconcileOne (markAllTombstone st)).arena e.2).includedChildProcs
        = [] := by
    have := foldl_preserve
      (P := fun s : ProcTree => ∀ e ∈ s.pidMap,
        (s.arena e.2).absChildProcs = [] ∧ (s.arena e.2).includedChildProcs = [])
      procs reconcileOne (markAllTombstone st) ?_ ?_
    · exact this
    · intro e he
      rw [markAllTombstone_pidMap] at he
      exact ⟨(markAllTombstone_marks st e he).2.1, (markAllTombstone_marks st e he).2.2⟩
    · intro s a _ hs e he
      unfold reconcileOne at he ⊢
      split at he
      · rename_i hallow
        split at he
        · rename_i m hl
          simp only [setNode_pidMap] at he
          simp only [hallow, if_true, hl]
          by_cases hn : e.2 = m
          · rw [hn, setNode_arena_same]
            exact hs (a.pid, m) (lookupPid_mem _ _ _ hl)
          · rw [setNode_arena_ne _ _ _ _ hn]
            exact hs e he
        · rename_i hl
          simp only [hallow, if_true, hl]
          rcases List.mem_append.mp he with he' | he'
          · by_cases hn : e.2 = s.nextId
            · rw [hn]
              simp only [setNode_arena_same]
              exact ⟨rfl, rfl⟩
            · rw [setNode_arena_ne _ _ _ _ hn]
              exact hs e he'
          · simp only [List.mem_singleton] at he'
            subst he'
            simp only [setNode_arena_same]
            exact ⟨rfl, rfl⟩
      · rename_i hallow
        simp only [hallow, if_false]
        exact hs e he
  intro e he
  rw [updateReconciled_arena]
  unfold updateReconciled at he
  dsimp only at he
  revert he
  split
  · intro he
    exact hfold e (List.mem_of_mem_filter he)
  · intro he
    exact hfold e he

/-- Claim C9: after every successful update, `Processes()`, `Roots()` and
`Children()` on every node of the snapshot are strictly ascending by process
id with no duplicate pid; ascending pid is the single sort key. -/
theorem orderingInvariant (fuel : Nat) (st : ProcTree) (procs : List GProc)
    (prune : Bool) (st' : ProcTree)
    (hwf : WellFormed st)
    (hupd : lockedUpdate fuel st (.ok procs) prune = some (none, st')) :
    StrictByPid st'.arena (Processes st') ∧
    StrictByPid st'.arena (Roots st') ∧
    ∀ nid ∈ st'.absProcs, StrictByPid st'.arena ((st'.arena nid).includedChildProcs) := by
  have hcore := lockedUpdate_ok_core fuel st procs prune none st' hupd
  have hwf3 := updateReconciled_wf st procs prune hwf
  have hupd' := hupd
  unfold lockedUpdate at hupd'
  dsimp only at hupd'
  split at hupd'
  · simp at hupd'
  · rename_i st4 hres
    split at hupd'
    · cases hupd'
    · rename_i st6 hincl
      split at hupd'
      · cases hupd'
      · rename_i st7 hkern
        simp only [Option.some.injEq, Prod.mk.injEq] at hupd'
        obtain ⟨-, hst'⟩ := hupd'
        subst hst'
        obtain ⟨r1, _, _, r4, _, _, _, _⟩ := updateResolve_ok_keeps _ st4 hres
        have hkeys4 : (st4.pidMap.map Prod.fst).Nodup := by
          rw [r1]; exact hwf3.1
        have hsnds4 : (st4.pidMap.map Prod.snd).Nodup := by
          rw [r1]; exact hwf3.2.1
        have hcons4 : ∀ e ∈ st4.pidMap,
            ((sortIncluded (includedPass st7)).arena e.2).gops.pid = e.1 := by
          intro e he
          rw [r1] at he
          rw [congrArg GProc.pid (hcore.2.2.2 e.2).1]
          exact (hwf3.2.2 e he).2
        have habs0 : (rebuildAbs st4).absProcs = st4.pidMap.map Prod.snd := by
          unfold rebuildAbs
          rw [rebuildFold_absProcs]
          rfl
        have habs7 : st7.absProcs = sortNidsByPid (rebuildAbs st4).arena
            (st4.pidMap.map Prod.snd) := by
          rw [(updateKernelExclude_keeps _ _ _ hkern).2.2.2.2.1,
            (updateInclude_keeps _ _ _ hincl).2.2.2.2.1,
            sortAllAbs_absProcs, habs0]
        have hperm7 : List.Perm st7.absProcs (st4.pidMap.map Prod.snd) := by
          rw [habs7]; exact sortNidsByPid_perm _ _
        have hnd7 : st7.absProcs.Nodup := hperm7.nodup_iff.mpr hsnds4
        have habs8 : (includedPass st7).absProcs = st7.absProcs :=
          (includedPass_keeps st7).2.2.2.2.1
        have hnd8 : (includedPass st7).absProcs.Nodup := habs8 ▸ hnd7
        have hkeyeq : ∀ n, ((includedPass st7).arena n).gops.pid =
            ((sortIncluded (includedPass st7)).arena n).gops.pid :=
          fun n =>
            (congrArg GProc.pid ((sortIncluded_keeps (includedPass st7)).2.2.2.2.2.2 n).1).symm
        have hchildempty : ∀ nid ∈ st7.absProcs,
            (st7.arena nid).includedChildProcs = [] := by
          intro nid hnid
          have hmem4 : nid ∈ st4.pidMap.map Prod.snd := hperm7.subset hnid
          obtain ⟨e, he, he2⟩ := List.mem_map.mp hmem4
          have he3 : e ∈ (updateReconciled st procs prune).pidMap := by
            rw [← r1]; exact he
          have h3 := (updateReconciled_children st procs prune e he3).2
          have h4 : (st4.arena nid).includedChildProcs = [] := by
            rw [r4, ← he2]; exact h3
          have h5 : ((sortAllAbs (rebuildAbs st4)).arena nid).includedChildProcs = [] := by
            rw [((sortAllAbs_keeps (rebuildAbs st4)).2.2.2.2.2.2 nid).2.2.2.1,
              ((rebuildAbs_keeps st4).2.2.2.2.2.2 nid).2.2.2]
            exact h4
          rw [((updateKernelExclude_keeps _ _ _ hkern).2.2.2.2.2.2.2.2 nid).2.2.2.2.2,
            ((updateInclude_keeps _ _ _ hincl).2.2.2.2.2.2.2.2 nid).2.2.2.2.2]
          exact h5
        refine ⟨?_, ?_, ?_⟩
        · show StrictByPid _ (sortIncluded (includedPass st7)).includedProcs
          rw [sortIncluded_includedProcs]
          obtain ⟨t, ht, hsubt⟩ := includedPassFold_included st7.absProcs
            { st7 with includedProcs := [], includedRootProcs := [] }
          have hincl8 : (includedPass st7).includedProcs = t := by
            unfold includedPass
            rw [ht]
            rfl
          refine strictByPid_of_sorted _ _
            (pairwise_le_congr (includedPass st7).arena _ _ hkeyeq
              (sortNidsByPid_pairwise _ _)) ?_
          have hnd := nodup_pid_of_sublist_perm (sortIncluded (includedPass st7)).arena
            st4.pidMap (includedPass st7).includedProcs st7.absProcs hcons4 hkeys4
            (by rw [hincl8]; exact hsubt) hperm7
          exact (((sortNidsByPid_perm (includedPass st7).arena _).map _).nodup_iff).mpr hnd
        · show StrictByPid _ (sortIncluded (includedPass st7)).includedRootProcs
          rw [sortIncluded_includedRootProcs]
          obtain ⟨t, ht, hsubt⟩ := includedPassFold_includedRoots st7.absProcs
            { st7 with includedProcs := [], includedRootProcs := [] }
          have hincl8 : (includedPass st7).includedRootProcs = t := by
            unfold includedPass
            rw [ht]
            rfl
          refine strictByPid_of_sorted _ _
            (pairwise_le_congr (includedPass st7).arena _ _ hkeyeq
              (sortNidsByPid_pairwise _ _)) ?_
          have hnd := nodup_pid_of_sublist_perm (sortIncluded (includedPass st7)).arena
            st4.pidMap (includedPass st7).includedRootProcs st7.absProcs hcons4 hkeys4
            (by rw [hincl8]; exact hsubt) hperm7
          exact (((sortNidsByPid_perm (includedPass st7).arena _).map _).nodup_iff).mpr hnd
        · intro nid hnid
          have hnid8 : nid ∈ (includedPass st7).absProcs := by
            rwa [(sortIncluded_keeps (includedPass st7)).2.2.2.2.1] at hnid
          rw [sortIncluded_childlist (includedPass st7) nid hnid8 hnd8]
          obtain ⟨t2, ht2, hsubt2⟩ := includedPassFold_childlist st7.absProcs
            { st7 with includedProcs := [], includedRootProcs := [] } nid
          have hch8 : ((includedPass st7).arena nid).includedChildProcs = t2 := by
            unfold includedPass
            rw [ht2]
            rw [show ({ st7 with includedProcs := [], includedRootProcs := [] } :
              ProcTree).arena = st7.arena from rfl]
            rw [hchildempty nid (habs8 ▸ hnid8)]
            rfl
          refine strictByPid_of_sorted _ _
            (pairwise_le_congr (includedPass st7).arena _ _ hkeyeq
              (sortNidsByPid_pairwise _ _)) ?_
          have hnd := nodup_pid_of_sublist_perm (sortIncluded (includedPass st7)).arena
            st4.pidMap ((includedPass st7).arena nid).includedChildProcs st7.absProcs
            hcons4 hkeys4 (by rw [hch8]; exact hsubt2) hperm7
          exact (((sortNidsByPid_perm (includedPass st7).arena _).map _).nodup_iff).mpr hnd

/-- Witness for claim C9 at a concrete successful update. -/
theorem orderingInvariantWitness :
    WellFormed (freshSession cfgDefault) ∧
    StrictByPid c9St.arena (Processes c9St) ∧
    StrictByPid c9St.arena (Roots c9St) :=
  ⟨by decide,
    (orderingInvariant 20 (freshSession cfgDefault) c10Enum false c9St (by decide) rfl).1,
    (orderingInvariant 20 (freshSession cfgDefault) c10Enum false c9St (by decide) rfl).2.1⟩

/-! ## Claim C7: parent chains and the marking walks -/

theorem parentIter_congr (arA arB : Nat → Process)
    (h : ∀ n, (arB n).parentProc = (arA n).parentProc) :
    ∀ (k n : Nat), parentIter arB k n = parentIter arA k n := by
  intro k
  induction k with
  | zero => intro n; rfl
  | succ k ih =>
    intro n
    simp only [parentIter, h n]
    cases (arA n).parentProc with
    | none => rfl
    | some p => exact ih p

theorem parentIter_extend (ar : Nat → Process) (t : Nat) :
    ∀ (k n c : Nat), parentIter ar k n = some c → (ar c).parentProc = some t →
      parentIter ar (k + 1) n = some t := by
  intro k
  induction k with
  | zero =>
    intro n c h hc
    simp only [parentIter] at h
    obtain rfl : n = c := Option.some.inj h
    simp only [parentIter, hc]
  | succ k ih =>
    intro n c h hc
    simp only [parentIter] at h
    cases hp : (ar n).parentProc with
    | none => rw [hp] at h; simp at h
    | some p =>
      rw [hp] at h
      have h' : parentIter ar k p = some c := h
      have hg : parentIter ar (k + 1 + 1) n = parentIter ar (k + 1) p := by
        simp only [parentIter, hp]
      rw [hg]
      exact ih p c h' hc

theorem markSubtree_incl_stable (b : Bool) :
    ∀ (fuel : Nat) (ar : Nat → Process) (nid : Nat) (ar2 : Nat → Process),
      markSubtree b fuel ar nid = some ar2 →
      ∀ n, (ar2 n).isIncluded = (ar n).isIncluded ∨ (ar2 n).isIncluded = b := by
  intro fuel
  induction fuel with
  | zero => intro ar nid ar2 h; cases h
  | succ f ih =>
    intro ar nid ar2 h
    simp only [markSubtree] at h
    refine optFoldl_invariant _
      (fun x => ∀ n, (x n).isIncluded = (ar n).isIncluded ∨ (x n).isIncluded = b) _ _
      ?_ ?_ ar2 h
    · intro n
      by_cases hn : n = nid
      · subst hn
        right
        simp [setIncl]
      · left
        simp [Function.update_noteq hn]
    · intro s c r _ hs hg n
      rcases ih s c r hg n with h1 | h1
      · rw [h1]; exact hs n
      · right; exact h1

theorem markAncestry_incl_stable :
    ∀ (fuel : Nat) (ar : Nat → Process) (nid : Nat) (ar2 : Nat → Process),
      markAncestry fuel ar nid = some ar2 →
      ∀ n, (ar2 n).isIncluded = (ar n).isIncluded ∨ (ar2 n).isIncluded = true := by
  intro fuel
  induction fuel with
  | zero => intro ar nid ar2 h; cases h
  | succ f ih =>
    intro ar nid ar2 h
    simp only [markAncestry] at h
    have hbase : ∀ n, ((Function.update ar nid (setIncl (ar nid) true)) n).isIncluded
        = (ar n).isIncluded ∨
        ((Function.update ar nid (setIncl (ar nid) true)) n).isIncluded = true := by
      intro n
      by_cases hn : n = nid
      · subst hn; right; simp [setIncl]
      · left; simp [Function.update_noteq hn]
    split at h
    · rename_i par hpar
      by_cases hp : par = nid
      · rw [if_pos hp] at h
        cases h
        exact hbase
      · rw [if_neg hp] at h
        intro n
        rcases ih _ par ar2 h n with h1 | h1
        · rw [h1]; exact hbase n
        · right; exact h1
    · cases h
      exact hbase

theorem markSubtree_marks_root (b : Bool) (fuel : Nat) (ar : Nat → Process)
    (nid : Nat) (ar2 : Nat → Process)
    (h : markSubtree b fuel ar nid = some ar2) :
    (ar2 nid).isIncluded = b := by
  cases fuel with
  | zero => cases h
  | succ f =>
    simp only [markSubtree] at h
    refine optFoldl_invariant _ (fun x => (x nid).isIncluded = b) _ _ ?_ ?_ ar2 h
    · simp [setIncl]
    · intro s c r _ hs hg
      rcases markSubtree_incl_stable b f s c r hg nid with h1 | h1
      · rw [h1]; exact hs
      · exact h1

theorem markSubtree_sound (b : Bool) :
    ∀ (fuel : Nat) (ar : Nat → Process) (root : Nat) (ar2 : Nat → Process),
      markSubtree b fuel ar root = some ar2 →
      (∀ m c, c ∈ (ar m).absChildProcs → (ar c).parentProc = some m) →
      ∀ n, ar2 n ≠ ar n → ∃ k, parentIter ar k n = some root := by
  intro fuel
  induction fuel with
  | zero => intro ar root ar2 h; cases h
  | succ f ih =>
    intro ar root ar2 h hcoh
    simp only [markSubtree] at h
    have hch : ((Function.update ar root (setIncl (ar root) b)) root).absChildProcs
        = (ar root).absChildProcs := by simp [setIncl]
    rw [hch] at h
    have hinv : SameSkeleton ar ar2 ∧
        ∀ n, ar2 n ≠ (Function.update ar root (setIncl (ar root) b)) n →
          ∃ k, parentIter ar k n = some root := by
      refine optFoldl_invariant _
        (fun x => SameSkeleton ar x ∧
          ∀ n, x n ≠ (Function.update ar root (setIncl (ar root) b)) n →
            ∃ k, parentIter ar k n = some root) _ _
        ⟨sameSkeleton_setIncl ar root b, fun n hn => absurd rfl hn⟩ ?_ ar2 h
      intro s c r hcmem hs hg
      refine ⟨sameSkeleton_trans hs.1 (markSubtree_skeleton b f s c r hg), ?_⟩
      intro n hn
      by_cases hrs : r n = s n
      · exact hs.2 n (by rw [hrs] at hn; exact hn)
      · have hcoh_s : ∀ m c2, c2 ∈ (s m).absChildProcs → (s c2).parentProc = some m := by
          intro m c2 hc2
          rw [(hs.1 m).2.2.2.2.1] at hc2
          rw [(hs.1 c2).2.2.1]
          exact hcoh m c2 hc2
        obtain ⟨k, hk⟩ := ih s c r hg hcoh_s n hrs
        rw [parentIter_congr ar s (fun m => (hs.1 m).2.2.1) k n] at hk
        exact ⟨k + 1, parentIter_extend ar root k n c hk (hcoh root c hcmem)⟩
    obtain ⟨hsk, h2⟩ := hinv
    intro n hn
    by_cases h1 : ar2 n = (Function.update ar root (setIncl (ar root) b)) n
    · by_cases hr : n = root
      · exact ⟨0, by rw [hr]; rfl⟩
      · exfalso
        apply hn
        rw [h1, Function.update_noteq hr]
    · exact h2 n h1

theorem markAncestry_marks :
    ∀ (fuel : Nat) (ar : Nat → Process) (nid : Nat) (ar2 : Nat → Process),
      markAncestry fuel ar nid = some ar2 →
      ∀ (k m : Nat), parentIter ar k nid = some m →
        (∀ j x, j < k → parentIter ar j nid = some x → (ar x).parentProc ≠ some x) →
        (ar2 m).isIncluded = true := by
  intro fuel
  induction fuel with
  | zero => intro ar nid ar2 h; cases h
  | succ f ih =>
    intro ar nid ar2 h k m hk hguard
    simp only [markAncestry] at h
    split at h
    · rename_i par hpar
      have hpar' : (ar nid).parentProc = some par := by
        simpa [setIncl] using hpar
      by_cases hp : par = nid
      · rw [if_pos hp] at h
        cases h
        cases k with
        | zero =>
          simp only [parentIter] at hk
          obtain rfl : nid = m := Option.some.inj hk
          simp [setIncl]
        | succ k0 =>
          exact absurd (by rw [hpar', hp]) (hguard 0 nid (Nat.succ_pos k0) rfl)
      · rw [if_neg hp] at h
        cases k with
        | zero =>
          simp only [parentIter] at hk
          obtain rfl : nid = m := Option.some.inj hk
          rcases markAncestry_incl_stable f _ par ar2 h nid with h1 | h1
          · rw [h1]; simp [setIncl]
          · exact h1
        | succ k0 =>
          have hk0 : parentIter ar k0 par = some m := by
            simp only [parentIter, hpar'] at hk
            exact hk
          have hpcongr : ∀ n,
              ((Function.update ar nid (setIncl (ar nid) true)) n).parentProc
                = (ar n).parentProc := by
            intro n
            by_cases hn : n = nid
            · subst hn; simp [setIncl]
            · simp [Function.update_noteq hn]
          refine ih _ par ar2 h k0 m ?_ ?_
          · rw [parentIter_congr ar _ hpcongr k0 par]
            exact hk0
          · intro j x hj hjx
            rw [parentIter_congr ar _ hpcongr j par] at hjx
            rw [hpcongr x]
            have hstep : parentIter ar (j + 1) nid = some x := by
              simp only [parentIter, hpar']
              exact hjx
            exact hguard (j + 1) x (Nat.succ_lt_succ hj) hstep
    · rename_i hpar
      have hpar' : (ar nid).parentProc = none := by
        simpa [setIncl] using hpar
      cases h
      cases k with
      | zero =>
        simp only [parentIter] at hk
        obtain rfl : nid = m := Option.some.inj hk
        simp [setIncl]
      | succ k0 =>
        exfalso
        simp only [parentIter, hpar'] at hk
        cases hk

theorem markSubtreeRoots_single (b : Bool) (fuel : Nat) (ar : Nat → Process) (r : Nat) :
    markSubtreeRoots b fuel ar [r] = markSubtree b fuel ar r := rfl

theorem markAncestryRoots_single (fuel : Nat) (ar : Nat → Process) (r : Nat) :
    markAncestryRoots fuel ar [r] = markAncestry fuel ar r := rfl

theorem reconcileOne_lookup_none_other (s : ProcTree) (a : GProc) (p : Int)
    (hne : a.pid ≠ p) (h : lookupPid s.pidMap p = none) :
    lookupPid (reconcileOne s a).pidMap p = none := by
  unfold reconcileOne
  split
  · split
    · simpa using h
    · dsimp only
      rw [lookupPid_append_none _ _ _ h]
      simp [lookupPid, hne]
  · exact h

theorem reconcileFold_keep_node (l : List GProc) (s : ProcTree) (p : Int) (nid : Nat)
    (hother : ∀ g ∈ l, g.pid ≠ p)
    (hwf : WellFormed s)
    (hlook : lookupPid s.pidMap p = some nid) :
    WellFormed (l.foldl reconcileOne s) ∧
    lookupPid (l.foldl reconcileOne s).pidMap p = some nid ∧
    (l.foldl reconcileOne s).arena nid = s.arena nid := by
  refine foldl_preserve
    (P := fun x : ProcTree => WellFormed x ∧ lookupPid x.pidMap p = some nid ∧
      x.arena nid = s.arena nid)
    l reconcileOne s ⟨hwf, hlook, rfl⟩ ?_
  intro x a hmem hx
  obtain ⟨hxwf, hxl, hxa⟩ := hx
  refine ⟨reconcileOne_wf x a hxwf, reconcileOne_lookup_some x a p nid hxl, ?_⟩
  unfold reconcileOne
  split
  · split
    · rename_i m hl
      have hmemm : (a.pid, m) ∈ x.pidMap := lookupPid_mem _ _ _ hl
      have hmemp : (p, nid) ∈ x.pidMap := lookupPid_mem _ _ _ hxl
      have hne : nid ≠ m := by
        intro hEq
        have hent : (p, nid) = (a.pid, m) :=
          nodup_snd_entry_eq hxwf.2.1 hmemp hmemm hEq
        exact hother a hmem (congrArg Prod.fst hent).symm
      rw [setNode_arena_ne _ _ _ _ hne]
      exact hxa
    · have hmemp : (p, nid) ∈ x.pidMap := lookupPid_mem _ _ _ hxl
      have hlt : nid < x.nextId := (hxwf.2.2 (p, nid) hmemp).1
      simpa [setNode_arena_ne _ _ _ _ (Nat.ne_of_lt hlt)] using hxa
  · exact hxa

theorem reconcileFold_creates :
    ∀ (l : List GProc) (s : ProcTree) (g : GProc),
      g ∈ l →
      allowedRec s.cfg g = true →
      (l.map GProc.pid).Nodup →
      lookupPid s.pidMap g.pid = none →
      WellFormed s →
      ∃ nid, lookupPid (l.foldl reconcileOne s).pidMap g.pid = some nid ∧
        (l.foldl reconcileOne s).arena nid =
          { newProcess g with isIncluded := !fixedRootsOf s.cfg } := by
  intro l
  induction l with
  | nil => intro s g hg; cases hg
  | cons a rest ih =>
    intro s g hg hallow hnd hnone hwf
    rw [List.map_cons, List.nodup_cons] at hnd
    obtain ⟨hhd, hndrest⟩ := hnd
    rw [List.foldl_cons]
    rcases List.mem_cons.mp hg with rfl | hgrest
    · have hl1 : lookupPid (reconcileOne s g).pidMap g.pid = some s.nextId := by
        unfold reconcileOne
        simp only [hallow, if_true, hnone]
        rw [lookupPid_append_none _ _ _ hnone]
        simp [lookupPid]
      have ha1 : (reconcileOne s g).arena s.nextId =
          { newProcess g with isIncluded := !fixedRootsOf s.cfg } := by
        unfold reconcileOne
        simp only [hallow, if_true, hnone]
        simp
      have hother : ∀ g2 ∈ rest, g2.pid ≠ g.pid := by
        intro g2 hg2 hEq
        exact hhd (hEq ▸ List.mem_map_of_mem GProc.pid hg2)
      obtain ⟨_, hl2, ha2⟩ := reconcileFold_keep_node rest (reconcileOne s g) g.pid
        s.nextId hother (reconcileOne_wf s g hwf) hl1
      exact ⟨s.nextId, hl2, ha2.trans ha1⟩
    · have hane : a.pid ≠ g.pid := by
        intro hEq
        apply hhd
        rw [hEq]
        exact List.mem_map_of_mem GProc.pid hgrest
      have hnone1 : lookupPid (reconcileOne s a).pidMap g.pid = none :=
        reconcileOne_lookup_none_other s a g.pid hane hnone
      have hcfg : (reconcileOne s a).cfg = s.cfg := reconcileOne_cfg s a
      obtain ⟨nid, hl2, ha2⟩ := ih (reconcileOne s a) g hgrest
        (by rw [hcfg]; exact hallow) hndrest hnone1 (reconcileOne_wf s a hwf)
      refine ⟨nid, hl2, ?_⟩
      rw [ha2, hcfg]

theorem reconcileFold_fresh_links (l : List GProc) (s : ProcTree)
    (h : ∀ n, (s.arena n).parentProc = none ∧ (s.arena n).absChildProcs = []) :
    ∀ n, ((l.foldl reconcileOne s).arena n).parentProc = none ∧
         ((l.foldl reconcileOne s).arena n).absChildProcs = [] := by
  refine foldl_preserve
    (P := fun x : ProcTree => ∀ n, (x.arena n).parentProc = none ∧
      (x.arena n).absChildProcs = [])
    l reconcileOne s h ?_
  intro x a _ hx n
  unfold reconcileOne
  split
  · split
    · rename_i m hl
      by_cases hn : n = m
      · subst hn
        rw [setNode_arena_same]
        exact ⟨(hx n).1, (hx n).2⟩
      · rw [setNode_arena_ne _ _ _ _ hn]
        exact hx n
    · dsimp only
      by_cases hn : n = x.nextId
      · subst hn
        rw [setNode_arena_same]
        simp [newProcess]
      · rw [setNode_arena_ne _ _ _ _ hn]
        exact hx n
  · exact hx n

theorem rebuildOne_resolved_none (s : ProcTree) (e : Int × Nat)
    (h : (if (s.arena e.2).gops.ppid ≠ 0
          then lookupPid s.pidMap ((s.arena e.2).gops.ppid) else none) = none) :
    (rebuildOne s e).arena = s.arena := by
  unfold rebuildOne
  dsimp only
  rw [h]

theorem rebuildOne_resolved_some (s : ProcTree) (e : Int × Nat) (pnid : Nat)
    (h : (if (s.arena e.2).gops.ppid ≠ 0
          then lookupPid s.pidMap ((s.arena e.2).gops.ppid) else none) = some pnid) :
    ((rebuildOne s e).arena e.2).parentProc = some pnid ∧
    (∀ n, n ≠ e.2 → ((rebuildOne s e).arena n).parentProc = (s.arena n).parentProc) ∧
    (∀ n, ((rebuildOne s e).arena n).absChildProcs =
       (s.arena n).absChildProcs ++ (if n = pnid then [e.2] else [])) := by
  unfold rebuildOne
  dsimp only
  rw [h]
  dsimp only
  refine ⟨?_, ?_, ?_⟩
  · rw [setNode_arena_same]
  · intro n hn
    rw [setNode_arena_ne _ _ _ _ hn]
    by_cases hp : n = pnid
    · subst hp
      rw [setNode_arena_same]
    · rw [setNode_arena_ne _ _ _ _ hp]
  · intro n
    by_cases hn : n = e.2
    · subst hn
      rw [setNode_arena_same]
      by_cases hp : e.2 = pnid
      · rw [← hp, setNode_arena_same]
        simp [← hp]
      · rw [setNode_arena_ne _ _ _ _ hp]
        simp [hp]
    · rw [setNode_arena_ne _ _ _ _ hn]
      by_cases hp : n = pnid
      · rw [hp, setNode_arena_same]
        simp
      · rw [setNode_arena_ne _ _ _ _ hp]
        simp [hp]

theorem rebuildFold_parents :
    ∀ (todo : List (Int × Nat)) (s : ProcTree),
      (todo.map Prod.snd).Nodup →
      (∀ e ∈ todo, (s.arena e.2).parentProc = none) →
      (∀ m c, c ∈ (s.arena m).absChildProcs → (s.arena c).parentProc = some m) →
      (∀ e ∈ todo,
        ((todo.foldl rebuildOne s).arena e.2).parentProc =
          (if (s.arena e.2).gops.ppid ≠ 0
           then lookupPid s.pidMap ((s.arena e.2).gops.ppid) else none)) ∧
      (∀ m c, c ∈ ((todo.foldl rebuildOne s).arena m).absChildProcs →
        ((todo.foldl rebuildOne s).arena c).parentProc = some m) ∧
      (∀ n, ((todo.foldl rebuildOne s).arena n).parentProc = (s.arena n).parentProc ∨
        n ∈ todo.map Prod.snd) := by
  intro todo
  induction todo with
  | nil =>
    intro s _ _ hcoh
    exact ⟨fun e he => absurd he (List.not_mem_nil e), hcoh, fun n => Or.inl rfl⟩
  | cons a rest ih =>
    intro s hnd hclean hcoh
    rw [List.map_cons, List.nodup_cons] at hnd
    obtain ⟨hhd, hndrest⟩ := hnd
    rw [List.foldl_cons]
    cases hres : (if (s.arena a.2).gops.ppid ≠ 0
        then lookupPid s.pidMap ((s.arena a.2).gops.ppid) else none) with
    | none =>
      have harena : (rebuildOne s a).arena = s.arena := rebuildOne_resolved_none s a hres
      have hclean1 : ∀ e ∈ rest, ((rebuildOne s a).arena e.2).parentProc = none := by
        intro e he
        rw [harena]
        exact hclean e (List.mem_cons_of_mem a he)
      have hcoh1 : ∀ m c, c ∈ ((rebuildOne s a).arena m).absChildProcs →
          ((rebuildOne s a).arena c).parentProc = some m := by
        intro m c hc
        rw [harena] at hc ⊢
        exact hcoh m c hc
      obtain ⟨ih1, ih2, ih3⟩ := ih (rebuildOne s a) hndrest hclean1 hcoh1
      refine ⟨?_, ih2, ?_⟩
      · intro e he
        rcases List.mem_cons.mp he with rfl | he'
        · rw [hres]
          rcases ih3 e.2 with h1 | h1
          · rw [h1, harena]
            exact hclean e (List.mem_cons_self e rest)
          · exact absurd h1 hhd
        · have hthis := ih1 e he'
          simp only [harena, (rebuildOne_keeps s a).1] at hthis
          exact hthis
      · intro n
        rcases ih3 n with h1 | h1
        · rw [harena] at h1
          exact Or.inl h1
        · rw [List.map_cons]
          exact Or.inr (List.mem_cons_of_mem _ h1)
    | some pnid =>
      obtain ⟨hP1, hP2, hP3⟩ := rebuildOne_resolved_some s a pnid hres
      have hclean1 : ∀ e ∈ rest, ((rebuildOne s a).arena e.2).parentProc = none := by
        intro e he
        have hne : e.2 ≠ a.2 := by
          intro hEq
          exact hhd (hEq ▸ List.mem_map_of_mem Prod.snd he)
        rw [hP2 e.2 hne]
        exact hclean e (List.mem_cons_of_mem a he)
      have hcoh1 : ∀ m c, c ∈ ((rebuildOne s a).arena m).absChildProcs →
          ((rebuildOne s a).arena c).parentProc = some m := by
        intro m c hc
        rw [hP3 m] at hc
        rcases List.mem_append.mp hc with hold | hnew
        · have hcnea : c ≠ a.2 := by
            intro hEq
            have hx := hcoh m c hold
            rw [hEq, hclean a (List.mem_cons_self a rest)] at hx
            cases hx
          rw [hP2 c hcnea]
          exact hcoh m c hold
        · by_cases hm : m = pnid
          · rw [if_pos hm] at hnew
            obtain rfl : c = a.2 := List.mem_singleton.mp hnew
            rw [hm]
            exact hP1
          · rw [if_neg hm] at hnew
            cases hnew
      obtain ⟨ih1, ih2, ih3⟩ := ih (rebuildOne s a) hndrest hclean1 hcoh1
      refine ⟨?_, ih2, ?_⟩
      · intro e he
        rcases List.mem_cons.mp he with rfl | he'
        · rw [hres]
          rcases ih3 e.2 with h1 | h1
          · rw [h1]
            exact hP1
          · exact absurd h1 hhd
        · have hthis := ih1 e he'
          have hg : ((rebuildOne s a).arena e.2).gops = (s.arena e.2).gops :=
            ((rebuildOne_keeps s a).2.2.2.2.2.2 e.2).1
          simp only [hg, (rebuildOne_keeps s a).1] at hthis
          exact hthis
      · intro n
        rcases ih3 n with h1 | h1
        · by_cases hn : n = a.2
          · rw [List.map_cons]
            exact Or.inr (hn ▸ List.mem_cons_self _ _)
          · rw [h1, hP2 n hn]
            exact Or.inl rfl
        · rw [List.map_cons]
          exact Or.inr (List.mem_cons_of_mem _ h1)

theorem sortAbsChildFold_mem_back :
    ∀ (l : List Nat) (s : ProcTree) (m c : Nat),
      c ∈ ((l.foldl sortAbsChildStep s).arena m).absChildProcs →
      c ∈ (s.arena m).absChildProcs := by
  intro l
  induction l with
  | nil => intro s m c hc; exact hc
  | cons a rest ih =>
    intro s m c hc
    rw [List.foldl_cons] at hc
    have hstep := ih (sortAbsChildStep s a) m c hc
    by_cases hm : m = a
    · subst hm
      unfold sortAbsChildStep at hstep
      rw [setNode_arena_same] at hstep
      exact (mem_sortNidsByPid s.arena c _).mp hstep
    · unfold sortAbsChildStep at hstep
      rw [setNode_arena_ne _ _ _ _ hm] at hstep
      exact hstep

theorem sortAllAbs_coherence (st : ProcTree)
    (h : ∀ m c, c ∈ (st.arena m).absChildProcs → (st.arena c).parentProc = some m) :
    ∀ m c, c ∈ ((sortAllAbs st).arena m).absChildProcs →
      ((sortAllAbs st).arena c).parentProc = some m := by
  intro m c hc
  have hm : c ∈ (st.arena m).absChildProcs := by
    unfold sortAllAbs at hc
    dsimp only at hc
    have hback := sortAbsChildFold_mem_back _ _ m c hc
    exact hback
  rw [((sortAllAbs_keeps st).2.2.2.2.2.2 c).2.2.2.2.1]
  exact h m c hm

theorem updateInclude_fixed (fuel : Nat) (st : ProcTree) (roots : List Nat)
    (st6 : ProcTree)
    (hfix : fixedRootsOf st.cfg = true)
    (hroots : st.cfgRootProcs = some roots)
    (h : updateInclude fuel st = some st6) :
    ∃ ar1, markSubtreeRoots true fuel st.arena roots = some ar1 ∧
      ((st.cfg.includeRootAncestors = false → st6 = { st with arena := ar1 }) ∧
       (st.cfg.includeRootAncestors = true →
         ∃ ar2, markAncestryRoots fuel ar1 roots = some ar2 ∧
           st6 = { st with arena := ar2 })) := by
  unfold updateInclude at h
  rw [if_pos hfix] at h
  have hget : st.cfgRootProcs.getD [] = roots := by
    rw [hroots]
    rfl
  rw [hget] at h
  split at h
  · cases h
  · rename_i ar1 hsub
    refine ⟨ar1, hsub, ?_, ?_⟩
    · intro hanc
      rw [hanc] at h
      simp only [Bool.false_eq_true, if_false] at h
      exact (Option.some.inj h).symm
    · intro hanc
      rw [hanc] at h
      simp only [if_true] at h
      split at h
      · cases h
      · rename_i ar2 han
        exact ⟨ar2, han, (Option.some.inj h).symm⟩

theorem updateKernelExclude_noop (fuel : Nat) (st : ProcTree) (st7 : ProcTree)
    (h : updateKernelExclude fuel st = some st7)
    (hcase : st.cfg.includeKernelThreads = true ∨
      lookupPid st.pidMap kthreadPid = none) :
    st7 = st := by
  unfold updateKernelExclude at h
  rcases hcase with hk | hk
  · rw [if_pos hk] at h
    exact (Option.some.inj h).symm
  · split at h
    · exact (Option.some.inj h).symm
    · rw [hk] at h
      exact (Option.some.inj h).symm

theorem includedPassStep_stable (s : ProcTree) (a n : Nat) :
    ((includedPassStep s a).arena n).isIncluded = (s.arena n).isIncluded ∧
    ((includedPassStep s a).arena n).parentProc = (s.arena n).parentProc := by
  unfold includedPassStep
  dsimp only
  split
  · split
    · rename_i pnid hp
      split
      · by_cases hn : n = pnid
        · subst hn
          rw [setNode_arena_same]
          exact ⟨rfl, rfl⟩
        · rw [setNode_arena_ne _ _ _ _ hn]
          exact ⟨rfl, rfl⟩
      · by_cases hn : n = pnid
        · subst hn
          rw [setNode_arena_same]
          exact ⟨rfl, rfl⟩
        · rw [setNode_arena_ne _ _ _ _ hn]
          exact ⟨rfl, rfl⟩
    · exact ⟨rfl, rfl⟩
  · exact ⟨rfl, rfl⟩

theorem includedPassStep_incl_append (s : ProcTree) (c : Nat)
    (hincl : (s.arena c).isIncluded = true) :
    (includedPassStep s c).includedProcs = s.includedProcs ++ [c] := by
  unfold includedPassStep
  dsimp only
  rw [if_pos hincl]
  cases hp : (s.arena c).parentProc with
  | none => rfl
  | some p =>
    dsimp only
    split
    · rfl
    · rfl

theorem includedPassStep_childattach (s : ProcTree) (c m : Nat)
    (hincl : (s.arena c).isIncluded = true)
    (hpar : (s.arena c).parentProc = some m) :
    ((includedPassStep s c).arena m).includedChildProcs =
      (s.arena m).includedChildProcs ++ [c] := by
  unfold includedPassStep
  dsimp only
  rw [if_pos hincl, hpar]
  dsimp only
  split
  · rw [setNode_arena_same]
  · rw [setNode_arena_same]

theorem includedPassStep_roots_append (s : ProcTree) (c : Nat)
    (hincl : (s.arena c).isIncluded = true)
    (hcond : (s.arena c).parentProc = none ∨
      ∃ p, (s.arena c).parentProc = some p ∧ (p = c ∨ (s.arena p).isIncluded = false)) :
    (includedPassStep s c).includedRootProcs = s.includedRootProcs ++ [c] := by
  unfold includedPassStep
  dsimp only
  rw [if_pos hincl]
  rcases hcond with hnone | ⟨p, hp, hpcond⟩
  · rw [hnone]
  · rw [hp]
    dsimp only
    split
    · rfl
    · rename_i hf
      exfalso
      apply hf
      rcases hpcond with h1 | h1
      · exact Or.inl h1
      · right
        rw [setNode_arena_same]
        exact h1

theorem includedPassStep_roots_src (s : ProcTree) (a x : Nat)
    (h : x ∈ (includedPassStep s a).includedRootProcs) :
    x ∈ s.includedRootProcs ∨
    (x = a ∧ (s.arena a).isIncluded = true ∧
      ((s.arena a).parentProc = none ∨
        ∃ p, (s.arena a).parentProc = some p ∧ (p = a ∨ (s.arena p).isIncluded = false))) := by
  unfold includedPassStep at h
  dsimp only at h
  by_cases hincl : (s.arena a).isIncluded = true
  · rw [if_pos hincl] at h
    cases hp : (s.arena a).parentProc with
    | none =>
      rw [hp] at h
      dsimp only at h
      rcases List.mem_append.mp h with h1 | h1
      · exact Or.inl h1
      · exact Or.inr ⟨List.mem_singleton.mp h1, hincl, Or.inl rfl⟩
    | some p =>
      rw [hp] at h
      dsimp only at h
      split at h
      · rename_i hc
        dsimp only at h
        rcases List.mem_append.mp h with h1 | h1
        · exact Or.inl h1
        · refine Or.inr ⟨List.mem_singleton.mp h1, hincl, Or.inr ⟨p, rfl, ?_⟩⟩
          rcases hc with h2 | h2
          · exact Or.inl h2
          · right
            rw [setNode_arena_same] at h2
            exact h2
      · exact Or.inl h
  · rw [if_neg hincl] at h
    exact Or.inl h

theorem includedPassFold_included_mem :
    ∀ (l : List Nat) (s : ProcTree) (c : Nat),
      c ∈ l → (s.arena c).isIncluded = true →
      c ∈ (l.foldl includedPassStep s).includedProcs := by
  intro l
  induction l with
  | nil => intro s c hc; cases hc
  | cons a rest ih =>
    intro s c hc hincl
    rw [List.foldl_cons]
    rcases List.mem_cons.mp hc with rfl | hc2
    · obtain ⟨t, ht, _⟩ := includedPassFold_included rest (includedPassStep s c)
      rw [ht, includedPassStep_incl_append s c hincl]
      exact List.mem_append.mpr (Or.inl (List.mem_append.mpr (Or.inr (List.mem_singleton_self c))))
    · exact ih (includedPassStep s a) c hc2
        (by rw [(includedPassStep_stable s a c).1]; exact hincl)

theorem includedPassFold_roots_est :
    ∀ (l : List Nat) (s : ProcTree) (c : Nat),
      c ∈ l → (s.arena c).isIncluded = true →
      ((s.arena c).parentProc = none ∨
        ∃ p, (s.arena c).parentProc = some p ∧ (p = c ∨ (s.arena p).isIncluded = false)) →
      c ∈ (l.foldl includedPassStep s).includedRootProcs := by
  intro l
  induction l with
  | nil => intro s c hc; cases hc
  | cons a rest ih =>
    intro s c hc hincl hcond
    rw [List.foldl_cons]
    rcases List.mem_cons.mp hc with rfl | hc2
    · obtain ⟨t, ht, _⟩ := includedPassFold_includedRoots rest (includedPassStep s c)
      rw [ht, includedPassStep_roots_append s c hincl hcond]
      exact List.mem_append.mpr (Or.inl (List.mem_append.mpr (Or.inr (List.mem_singleton_self c))))
    · refine ih (includedPassStep s a) c hc2
        (by rw [(includedPassStep_stable s a c).1]; exact hincl) ?_
      rcases hcond with h1 | ⟨p, hp, hpc⟩
      · exact Or.inl (by rw [(includedPassStep_stable s a c).2]; exact h1)
      · refine Or.inr ⟨p, by rw [(includedPassStep_stable s a c).2]; exact hp, ?_⟩
        rcases hpc with h2 | h2
        · exact Or.inl h2
        · exact Or.inr (by rw [(includedPassStep_stable s a p).1]; exact h2)

theorem includedPassFold_child_est :
    ∀ (l : List Nat) (s : ProcTree) (c m : Nat),
      c ∈ l → (s.arena c).isIncluded = true → (s.arena c).parentProc = some m →
      c ∈ ((l.foldl includedPassStep s).arena m).includedChildProcs := by
  intro l
  induction l with
  | nil => intro s c m hc; cases hc
  | cons a rest ih =>
    intro s c m hc hincl hpar
    rw [List.foldl_cons]
    rcases List.mem_cons.mp hc with rfl | hc2
    · obtain ⟨t, ht, _⟩ := includedPassFold_childlist rest (includedPassStep s c) m
      rw [ht, includedPassStep_childattach s c m hincl hpar]
      exact List.mem_append.mpr (Or.inl (List.mem_append.mpr (Or.inr (List.mem_singleton_self c))))
    · exact ih (includedPassStep s a) c m hc2
        (by rw [(includedPassStep_stable s a c).1]; exact hincl)
        (by rw [(includedPassStep_stable s a c).2]; exact hpar)

theorem includedPassFold_roots_src :
    ∀ (l : List Nat) (s : ProcTree) (x : Nat),
      x ∈ (l.foldl includedPassStep s).includedRootProcs →
      x ∈ s.includedRootProcs ∨
      (x ∈ l ∧ (s.arena x).isIncluded = true ∧
        ((s.arena x).parentProc = none ∨
          ∃ p, (s.arena x).parentProc = some p ∧ (p = x ∨ (s.arena p).isIncluded = false))) := by
  intro l
  induction l with
  | nil => intro s x h; exact Or.inl h
  | cons a rest ih =>
    intro s x h
    rw [List.foldl_cons] at h
    rcases ih (includedPassStep s a) x h with h1 | ⟨hmem, hincl, hcond⟩
    · rcases includedPassStep_roots_src s a x h1 with h2 | ⟨rfl, h3, h4⟩
      · exact Or.inl h2
      · exact Or.inr ⟨List.mem_cons_self _ _, h3, h4⟩
    · right
      refine ⟨List.mem_cons_of_mem a hmem, ?_, ?_⟩
      · rw [← (includedPassStep_stable s a x).1]
        exact hincl
      · rcases hcond with h1 | ⟨p, hp, hpc⟩
        · exact Or.inl (by rw [← (includedPassStep_stable s a x).2]; exact h1)
        · refine Or.inr ⟨p, by rw [← (includedPassStep_stable s a x).2]; exact hp, ?_⟩
          rcases hpc with h2 | h2
          · exact Or.inl h2
          · exact Or.inr (by rw [← (includedPassStep_stable s a p).1]; exact h2)

theorem allowedRec_of_ne (c : Config) (g : GProc)
    (hp : g.pid ≠ 2) (hpp : g.ppid ≠ 2) : allowedRec c g = true := by
  unfold allowedRec
  simp only [Bool.or_eq_true, Bool.and_eq_true, bne_iff_ne]
  exact Or.inr ⟨hp, hpp⟩

/-- Claim C7: for an enumeration containing a configured root `r` with real OS
ancestors `a1 → a2 → r` (`a1` parentless, none of the three a kernel-thread
pid), a successful initial update yields: with `includeRootAncestors = false`
the root node of pid `r` is in `Roots()`, and with
`includeRootAncestors = true` the pid-`a1` node is in `Roots()` while the
pid-`r` node is in `Processes()` but not in `Roots()`, nested beneath `a1` via
the included child chain `a1 → a2 → r`. -/
theorem ancestorInclusionToggle
    (fuel : Nat) (procs : List GProc) (kern anc : Bool)
    (a1p a2p rp : Int) (e1 e2 e3 : String) (st : ProcTree)
    (hnd : (procs.map GProc.pid).Nodup)
    (h1 : (⟨a1p, 0, e1⟩ : GProc) ∈ procs)
    (h2 : (⟨a2p, a1p, e2⟩ : GProc) ∈ procs)
    (h3 : (⟨rp, a2p, e3⟩ : GProc) ∈ procs)
    (hz1 : a1p ≠ 0) (hz2 : a2p ≠ 0) (_hz3 : rp ≠ 0)
    (hk1 : a1p ≠ 2) (hk2 : a2p ≠ 2) (hk3 : rp ≠ 2)
    (hnew : NewProcTree fuel ⟨kern, anc, [rp]⟩ (.ok procs) = some (.ok st)) :
    ∃ n1 n2 nr : Nat,
      lookupPid st.pidMap a1p = some n1 ∧
      lookupPid st.pidMap a2p = some n2 ∧
      lookupPid st.pidMap rp = some nr ∧
      (st.arena n1).gops = ⟨a1p, 0, e1⟩ ∧
      (st.arena n2).gops = ⟨a2p, a1p, e2⟩ ∧
      (st.arena nr).gops = ⟨rp, a2p, e3⟩ ∧
      nr ∈ Processes st ∧
      (anc = false → nr ∈ Roots st) ∧
      (anc = true →
        n1 ∈ Roots st ∧ nr ∉ Roots st ∧
        n2 ∈ (st.arena n1).includedChildProcs ∧
        nr ∈ (st.arena n2).includedChildProcs) := by
  have hinj := List.inj_on_of_nodup_map hnd
  have hd12 : a1p ≠ a2p := by
    intro hEq
    have hrec : (⟨a1p, 0, e1⟩ : GProc) = ⟨a2p, a1p, e2⟩ := hinj h1 h2 hEq
    exact hz1 (congrArg GProc.ppid hrec).symm
  have hd13 : a1p ≠ rp := by
    intro hEq
    have hrec : (⟨a1p, 0, e1⟩ : GProc) = ⟨rp, a2p, e3⟩ := hinj h1 h3 hEq
    exact hz2 (congrArg GProc.ppid hrec).symm
  have hd23 : a2p ≠ rp := by
    intro hEq
    have hrec : (⟨a2p, a1p, e2⟩ : GProc) = ⟨rp, a2p, e3⟩ := hinj h2 h3 hEq
    exact hd12 (congrArg GProc.ppid hrec)
  -- extract the successful update
  unfold NewProcTree at hnew
  split at hnew
  · cases hnew
  · simp at hnew
  · rename_i stt hupd
    obtain rfl : st = stt := (Except.ok.inj (Option.some.inj hnew)).symm
    clear hnew
    -- the reconciled state
    set st3 : ProcTree :=
      updateReconciled (freshSession ⟨kern, anc, [rp]⟩) procs false with hst3def
    have hwfF : WellFormed (freshSession ⟨kern, anc, [rp]⟩) := by
      refine ⟨List.nodup_nil, List.nodup_nil, ?_⟩
      intro e he
      cases he
    have hwf3 : WellFormed st3 :=
      updateReconciled_wf (freshSession ⟨kern, anc, [rp]⟩) procs false hwfF
    have hcore := lockedUpdate_ok_core fuel (freshSession ⟨kern, anc, [rp]⟩)
      procs false none st hupd
    -- the three created nodes
    obtain ⟨n1, hl1a, hv1a⟩ := reconcileFold_creates procs
      (freshSession ⟨kern, anc, [rp]⟩) ⟨a1p, 0, e1⟩ h1
      (allowedRec_of_ne _ _ hk1 (show (0 : Int) ≠ 2 by decide)) hnd rfl hwfF
    obtain ⟨n2, hl2a, hv2a⟩ := reconcileFold_creates procs
      (freshSession ⟨kern, anc, [rp]⟩) ⟨a2p, a1p, e2⟩ h2
      (allowedRec_of_ne _ _ hk2 hk1) hnd rfl hwfF
    obtain ⟨nr, hl3a, hv3a⟩ := reconcileFold_creates procs
      (freshSession ⟨kern, anc, [rp]⟩) ⟨rp, a2p, e3⟩ h3
      (allowedRec_of_ne _ _ hk3 hk2) hnd rfl hwfF
    have hl1 : lookupPid st3.pidMap a1p = some n1 := hl1a
    have hl2 : lookupPid st3.pidMap a2p = some n2 := hl2a
    have hl3 : lookupPid st3.pidMap rp = some nr := hl3a
    have hv1 : st3.arena n1 = ⟨⟨a1p, 0, e1⟩, false, none, none, [], [], false⟩ := hv1a
    have hv2 : st3.arena n2 = ⟨⟨a2p, a1p, e2⟩, false, none, none, [], [], false⟩ := hv2a
    have hv3 : st3.arena nr = ⟨⟨rp, a2p, e3⟩, false, none, none, [], [], false⟩ := hv3a
    have hmem1 : (a1p, n1) ∈ st3.pidMap := lookupPid_mem _ _ _ hl1
    have hmem2 : (a2p, n2) ∈ st3.pidMap := lookupPid_mem _ _ _ hl2
    have hmem3 : (rp, nr) ∈ st3.pidMap := lookupPid_mem _ _ _ hl3
    have hne12 : n1 ≠ n2 := by
      intro hEq
      exact hd12 (congrArg Prod.fst (nodup_snd_entry_eq hwf3.2.1 hmem1 hmem2 hEq))
    have hne1r : n1 ≠ nr := by
      intro hEq
      exact hd13 (congrArg Prod.fst (nodup_snd_entry_eq hwf3.2.1 hmem1 hmem3 hEq))
    have hne2r : n2 ≠ nr := by
      intro hEq
      exact hd23 (congrArg Prod.fst (nodup_snd_entry_eq hwf3.2.1 hmem2 hmem3 hEq))
    have hlinks3 : ∀ n, (st3.arena n).parentProc = none ∧
        (st3.arena n).absChildProcs = [] :=
      reconcileFold_fresh_links procs (freshSession ⟨kern, anc, [rp]⟩)
        (fun _ => ⟨rfl, rfl⟩)
    have hcfg3 : st3.cfg = ⟨kern, anc, [rp]⟩ :=
      updateReconciled_cfg (freshSession ⟨kern, anc, [rp]⟩) procs false
    have hroots3 : st3.cfgRootProcs = none :=
      updateReconciled_cfgRootProcs (freshSession ⟨kern, anc, [rp]⟩) procs false
    -- resolution of the configured root
    unfold lockedUpdate at hupd
    dsimp only at hupd
    split at hupd
    · simp at hupd
    · rename_i st4 hres
      split at hupd
      · cases hupd
      · rename_i st6 hincl
        split at hupd
        · cases hupd
        · rename_i st7 hkern
          simp only [Option.some.injEq, Prod.mk.injEq] at hupd
          obtain ⟨-, hstF⟩ := hupd
          have hres' : updateResolve st3 = .ok { st3 with cfgRootProcs := some [nr] } := by
            unfold updateResolve
            have hcond : (fixedRootsOf st3.cfg && st3.cfgRootProcs.isNone) = true := by
              rw [hcfg3, hroots3]
              rfl
            rw [if_pos hcond]
            have haux : resolveRootsAux st3.pidMap st3.cfg.rootPids = .ok [nr] := by
              rw [hcfg3]
              show resolveRootsAux st3.pidMap [rp] = .ok [nr]
              simp [resolveRootsAux, hl3]
            rw [haux]
          have hst4 : st4 = { st3 with cfgRootProcs := some [nr] } :=
            (Except.ok.inj (hres'.symm.trans hres)).symm
          subst hst4
          -- the rebuilt and sorted state
          set st5 : ProcTree :=
            sortAllAbs (rebuildAbs { st3 with cfgRootProcs := some [nr] }) with hst5def
          have hsnd3 : (st3.pidMap.map Prod.snd).Nodup := hwf3.2.1
          obtain ⟨hRB1, hRB2, hRB3⟩ := rebuildFold_parents
            ({ st3 with cfgRootProcs := some [nr] } : ProcTree).pidMap
            { ({ st3 with cfgRootProcs := some [nr] } : ProcTree) with
                absProcs := [], absRootProcs := [] }
            hsnd3
            (fun e _ => (hlinks3 e.2).1)
            (by
              intro m c hc
              have hc2 : c ∈ (st3.arena m).absChildProcs := hc
              rw [(hlinks3 m).2] at hc2
              exact absurd hc2 (List.not_mem_nil c))
          have hparR3 : ((rebuildAbs { st3 with cfgRootProcs := some [nr] }).arena nr).parentProc =
              (if (st3.arena nr).gops.ppid ≠ 0
               then lookupPid st3.pidMap ((st3.arena nr).gops.ppid) else none) :=
            hRB1 (rp, nr) hmem3
          have hparR2 : ((rebuildAbs { st3 with cfgRootProcs := some [nr] }).arena n2).parentProc =
              (if (st3.arena n2).gops.ppid ≠ 0
               then lookupPid st3.pidMap ((st3.arena n2).gops.ppid) else none) :=
            hRB1 (a2p, n2) hmem2
          have hparR1 : ((rebuildAbs { st3 with cfgRootProcs := some [nr] }).arena n1).parentProc =
              (if (st3.arena n1).gops.ppid ≠ 0
               then lookupPid st3.pidMap ((st3.arena n1).gops.ppid) else none) :=
            hRB1 (a1p, n1) hmem1
          have hg1 : (st3.arena n1).gops = (⟨a1p, 0, e1⟩ : GProc) := congrArg Process.gops hv1
          have hg2 : (st3.arena n2).gops = (⟨a2p, a1p, e2⟩ : GProc) := congrArg Process.gops hv2
          have hg3 : (st3.arena nr).gops = (⟨rp, a2p, e3⟩ : GProc) := congrArg Process.gops hv3
          simp only [hg3] at hparR3
          rw [if_pos hz2, hl2] at hparR3
          simp only [hg2] at hparR2
          rw [if_pos hz1, hl1] at hparR2
          simp only [hg1] at hparR1
          rw [if_neg (fun hx => hx rfl)] at hparR1
          -- parent links and flags at st5
          have hpar5r : (st5.arena nr).parentProc = some n2 :=
            (((sortAllAbs_keeps (rebuildAbs { st3 with cfgRootProcs := some [nr] })).2.2.2.2.2.2
              nr).2.2.2.2.1).trans hparR3
          have hpar5b : (st5.arena n2).parentProc = some n1 :=
            (((sortAllAbs_keeps (rebuildAbs { st3 with cfgRootProcs := some [nr] })).2.2.2.2.2.2
              n2).2.2.2.2.1).trans hparR2
          have hpar5a : (st5.arena n1).parentProc = none :=
            (((sortAllAbs_keeps (rebuildAbs { st3 with cfgRootProcs := some [nr] })).2.2.2.2.2.2
              n1).2.2.2.2.1).trans hparR1
          have hincl5 : ∀ x : Nat, (st3.arena x).isIncluded = false →
              (st5.arena x).isIncluded = false := by
            intro x hx
            have hs := ((sortAllAbs_keeps
              (rebuildAbs { st3 with cfgRootProcs := some [nr] })).2.2.2.2.2.2 x).2.2.1
            have hb := ((rebuildAbs_keeps
              ({ st3 with cfgRootProcs := some [nr] } : ProcTree)).2.2.2.2.2.2 x).2.2.1
            rw [hs, hb]
            exact hx
          have hincl5r : (st5.arena nr).isIncluded = false :=
            hincl5 nr (by rw [hv3])
          have hincl5b : (st5.arena n2).isIncluded = false :=
            hincl5 n2 (by rw [hv2])
          have hincl5a : (st5.arena n1).isIncluded = false :=
            hincl5 n1 (by rw [hv1])
          have hcoh5 : ∀ m c, c ∈ (st5.arena m).absChildProcs →
              (st5.arena c).parentProc = some m :=
            sortAllAbs_coherence (rebuildAbs { st3 with cfgRootProcs := some [nr] }) hRB2
          have hpm5 : st5.pidMap = st3.pidMap :=
            ((sortAllAbs_keeps (rebuildAbs { st3 with cfgRootProcs := some [nr] })).1).trans
              ((rebuildAbs_keeps ({ st3 with cfgRootProcs := some [nr] } : ProcTree)).1)
          have hcfg5 : st5.cfg = ⟨kern, anc, [rp]⟩ :=
            (((sortAllAbs_keeps (rebuildAbs { st3 with cfgRootProcs := some [nr] })).2.1).trans
              ((rebuildAbs_keeps ({ st3 with cfgRootProcs := some [nr] } : ProcTree)).2.1)).trans
              hcfg3
          have hroots5 : st5.cfgRootProcs = some [nr] :=
            ((sortAllAbs_keeps (rebuildAbs { st3 with cfgRootProcs := some [nr] })).2.2.2.1).trans
              ((rebuildAbs_keeps ({ st3 with cfgRootProcs := some [nr] } : ProcTree)).2.2.2.1)
          have habs0 : (rebuildAbs { st3 with cfgRootProcs := some [nr] }).absProcs =
              st3.pidMap.map Prod.snd := by
            unfold rebuildAbs
            rw [rebuildFold_absProcs]
            rfl
          have habs5 : st5.absProcs = sortNidsByPid
              (rebuildAbs { st3 with cfgRootProcs := some [nr] }).arena
              (st3.pidMap.map Prod.snd) := by
            rw [hst5def, sortAllAbs_absProcs, habs0]
          have hperm5 : List.Perm st5.absProcs (st3.pidMap.map Prod.snd) := by
            rw [habs5]
            exact sortNidsByPid_perm _ _
          have hnd5 : st5.absProcs.Nodup := hperm5.nodup_iff.mpr hsnd3
          have hmemAbs : ∀ (q : Int) (n : Nat), (q, n) ∈ st3.pidMap → n ∈ st5.absProcs := by
            intro q n hqn
            rw [habs5, mem_sortNidsByPid]
            exact List.mem_map_of_mem Prod.snd hqn
          -- destructure the inclusion pass
          obtain ⟨ar1, hsubR, hancF, hancT⟩ := updateInclude_fixed fuel st5 [nr] st6
            (by rw [hcfg5]; rfl) hroots5 hincl
          have hsub1 : markSubtree true fuel st5.arena nr = some ar1 := by
            rw [← markSubtreeRoots_single]
            exact hsubR
          have har1r : (ar1 nr).isIncluded = true :=
            markSubtree_marks_root true fuel st5.arena nr ar1 hsub1
          have hsk1 : SameSkeleton st5.arena ar1 :=
            markSubtree_skeleton true fuel st5.arena nr ar1 hsub1
          have har1par : ∀ x, (ar1 x).parentProc = (st5.arena x).parentProc :=
            fun x => (hsk1 x).2.2.1
          have hreach := markSubtree_sound true fuel st5.arena nr ar1 hsub1 hcoh5
          have har1b : ar1 n2 = st5.arena n2 := by
            by_contra hC
            obtain ⟨k, hk⟩ := hreach n2 hC
            cases k with
            | zero =>
              simp only [parentIter] at hk
              exact hne2r (Option.some.inj hk)
            | succ k0 =>
              have hk0 : parentIter st5.arena k0 n1 = some nr := by
                simp only [parentIter, hpar5b] at hk
                exact hk
              cases k0 with
              | zero =>
                simp only [parentIter] at hk0
                exact hne1r (Option.some.inj hk0)
              | succ k1 =>
                simp only [parentIter, hpar5a] at hk0
                cases hk0
          have har1a : ar1 n1 = st5.arena n1 := by
            by_contra hC
            obtain ⟨k, hk⟩ := hreach n1 hC
            cases k with
            | zero =>
              simp only [parentIter] at hk
              exact hne1r (Option.some.inj hk)
            | succ k0 =>
              simp only [parentIter, hpar5a] at hk
              cases hk
          -- the kernel-exclusion pass is a no-op here
          have hcfg6 : st6.cfg = ⟨kern, anc, [rp]⟩ :=
            ((updateInclude_keeps fuel st5 st6 hincl).2.1).trans hcfg5
          have hpm6 : st6.pidMap = st3.pidMap :=
            ((updateInclude_keeps fuel st5 st6 hincl).1).trans hpm5
          have hst7 : st6 = st7 := by
            refine (updateKernelExclude_noop fuel st6 st7 hkern ?_).symm
            cases hkb : kern with
            | true =>
              left
              rw [hcfg6]
              exact hkb
            | false =>
              right
              rw [hpm6]
              refine (lookupPid_eq_none_iff _ _).mpr ?_
              intro e he
              have hker := reconcileFold_no_kernel procs
                (freshSession ⟨kern, anc, [rp]⟩) hkb
                (fun e2 he2 => absurd he2 (List.not_mem_nil e2))
              exact (hker.1 e he).2.2
          obtain rfl : st6 = st7 := hst7
          subst hstF
          -- hoisted facts at st6 and the final state
          have habs6 : st6.absProcs = st5.absProcs :=
            (updateInclude_keeps fuel st5 st6 hincl).2.2.2.2.1
          have hmem6 : ∀ (q : Int) (n : Nat), (q, n) ∈ st3.pidMap → n ∈ st6.absProcs := by
            intro q n hqn
            rw [habs6]
            exact hmemAbs q n hqn
          have hancF2 : anc = false → st6 = { st5 with arena := ar1 } := by
            intro ha
            exact hancF (by rw [hcfg5]; exact ha)
          have hancT2 : anc = true →
              ∃ ar2, markAncestry fuel ar1 nr = some ar2 ∧
                st6 = { st5 with arena := ar2 } := by
            intro ha
            obtain ⟨ar2, han, hst6⟩ := hancT (by rw [hcfg5]; exact ha)
            refine ⟨ar2, ?_, hst6⟩
            rw [← markAncestryRoots_single]
            exact han
          have hincl6r : (st6.arena nr).isIncluded = true := by
            cases hanc : anc with
            | false =>
              rw [hancF2 hanc]
              exact har1r
            | true =>
              obtain ⟨ar2, han, hst6⟩ := hancT2 hanc
              rw [hst6]
              exact markAncestry_marks fuel ar1 nr ar2 han 0 nr rfl
                (fun j x hj _ => absurd hj (Nat.not_lt_zero j))
          have hpmF : (sortIncluded (includedPass st6)).pidMap = st3.pidMap := by
            rw [(sortIncluded_keeps (includedPass st6)).1, (includedPass_keeps st6).1, hpm6]
          refine ⟨n1, n2, nr, ?_, ?_, ?_, ?_, ?_, ?_, ?_, ?_, ?_⟩
          · rw [hpmF]
            exact hl1
          · rw [hpmF]
            exact hl2
          · rw [hpmF]
            exact hl3
          · exact (hcore.2.2.2 n1).1.trans hg1
          · exact (hcore.2.2.2 n2).1.trans hg2
          · exact (hcore.2.2.2 nr).1.trans hg3
          · show nr ∈ (sortIncluded (includedPass st6)).includedProcs
            rw [sortIncluded_includedProcs, mem_sortNidsByPid]
            have hx := includedPassFold_included_mem st6.absProcs
              { st6 with includedProcs := [], includedRootProcs := [] } nr
              (hmem6 rp nr hmem3) hincl6r
            exact hx
          · -- without root ancestors the configured root is an included root
            intro hanc
            have hst6 := hancF2 hanc
            subst hst6
            show nr ∈ (sortIncluded (includedPass { st5 with arena := ar1 })).includedRootProcs
            rw [sortIncluded_includedRootProcs, mem_sortNidsByPid]
            have hx := includedPassFold_roots_est
              (({ st5 with arena := ar1 } : ProcTree).absProcs)
              { ({ st5 with arena := ar1 } : ProcTree) with
                  includedProcs := [], includedRootProcs := [] }
              nr (hmemAbs rp nr hmem3) har1r
              (Or.inr ⟨n2, (har1par nr).trans hpar5r,
                Or.inr (show (ar1 n2).isIncluded = false by
                  rw [har1b]; exact hincl5b)⟩)
            exact hx
          · -- with root ancestors the top ancestor is the included root
            intro hanc
            obtain ⟨ar2, han, hst6⟩ := hancT2 hanc
            subst hst6
            have hsk2 : SameSkeleton ar1 ar2 := markAncestry_skeleton fuel ar1 nr ar2 han
            have har2par : ∀ x, (ar2 x).parentProc = (ar1 x).parentProc :=
              fun x => (hsk2 x).2.2.1
            have hpc1 : (ar1 nr).parentProc = some n2 := (har1par nr).trans hpar5r
            have hpc2 : (ar1 n2).parentProc = some n1 := (har1par n2).trans hpar5b
            have hpc3 : (ar1 n1).parentProc = none := (har1par n1).trans hpar5a
            have hit1 : parentIter ar1 1 nr = some n2 :=
              parentIter_extend ar1 n2 0 nr nr rfl hpc1
            have hit2 : parentIter ar1 2 nr = some n1 :=
              parentIter_extend ar1 n1 1 nr n2 hit1 hpc2
            have hguard2 : ∀ j x, j < 2 → parentIter ar1 j nr = some x →
                (ar1 x).parentProc ≠ some x := by
              intro j x hj hjx
              cases j with
              | zero =>
                simp only [parentIter] at hjx
                obtain rfl : nr = x := Option.some.inj hjx
                rw [hpc1]
                intro hE
                exact hne2r (Option.some.inj hE)
              | succ j0 =>
                cases j0 with
                | zero =>
                  obtain rfl : n2 = x := Option.some.inj (hit1.symm.trans hjx)
                  rw [hpc2]
                  intro hE
                  exact hne12 (Option.some.inj hE)
                | succ j1 => exact absurd hj (by omega)
            have hia : (ar2 n1).isIncluded = true :=
              markAncestry_marks fuel ar1 nr ar2 han 2 n1 hit2 hguard2
            have hib : (ar2 n2).isIncluded = true :=
              markAncestry_marks fuel ar1 nr ar2 han 1 n2 hit1
                (fun j x hj hjx => hguard2 j x (by omega) hjx)
            have hir : (ar2 nr).isIncluded = true :=
              markAncestry_marks fuel ar1 nr ar2 han 0 nr rfl
                (fun j x hj _ => absurd hj (Nat.not_lt_zero j))
            have hnd8 : (includedPass { st5 with arena := ar2 }).absProcs.Nodup := by
              rw [(includedPass_keeps _).2.2.2.2.1]
              exact hnd5
            refine ⟨?_, ?_, ?_, ?_⟩
            · show n1 ∈ (sortIncluded (includedPass { st5 with arena := ar2 })).includedRootProcs
              rw [sortIncluded_includedRootProcs, mem_sortNidsByPid]
              have hx := includedPassFold_roots_est
                (({ st5 with arena := ar2 } : ProcTree).absProcs)
                { ({ st5 with arena := ar2 } : ProcTree) with
                    includedProcs := [], includedRootProcs := [] }
                n1 (hmemAbs a1p n1 hmem1) hia
                (Or.inl ((har2par n1).trans hpc3))
              exact hx
            · show nr ∉ (sortIncluded (includedPass { st5 with arena := ar2 })).includedRootProcs
              rw [sortIncluded_includedRootProcs, mem_sortNidsByPid]
              intro hmem
              have hsrc := includedPassFold_roots_src
                (({ st5 with arena := ar2 } : ProcTree).absProcs)
                { ({ st5 with arena := ar2 } : ProcTree) with
                    includedProcs := [], includedRootProcs := [] }
                nr hmem
              rcases hsrc with hbase | ⟨-, -, hcond⟩
              · exact absurd hbase (List.not_mem_nil nr)
              · rcases hcond with hnone | ⟨p, hp, hpor⟩
                · have hx : (ar2 nr).parentProc = none := hnone
                  rw [(har2par nr).trans hpc1] at hx
                  cases hx
                · have hpx : (ar2 nr).parentProc = some p := hp
                  have hpn2 : n2 = p :=
                    Option.some.inj (((har2par nr).trans hpc1).symm.trans hpx)
                  rcases hpor with hE | hE
                  · apply hne2r
                    rw [hpn2]
                    exact hE
                  · have hx2 : (ar2 n2).isIncluded = false := by
                      rw [hpn2]
                      exact hE
                    rw [hib] at hx2
                    cases hx2
            · show n2 ∈ ((sortIncluded (includedPass { st5 with arena := ar2 })).arena n1).includedChildProcs
              have hmem8 : n1 ∈ (includedPass { st5 with arena := ar2 }).absProcs := by
                rw [(includedPass_keeps _).2.2.2.2.1]
                exact hmemAbs a1p n1 hmem1
              rw [sortIncluded_childlist (includedPass { st5 with arena := ar2 }) n1 hmem8 hnd8,
                mem_sortNidsByPid]
              have hx := includedPassFold_child_est
                (({ st5 with arena := ar2 } : ProcTree).absProcs)
                { ({ st5 with arena := ar2 } : ProcTree) with
                    includedProcs := [], includedRootProcs := [] }
                n2 n1 (hmemAbs a2p n2 hmem2) hib ((har2par n2).trans hpc2)
              exact hx
            · show nr ∈ ((sortIncluded (includedPass { st5 with arena := ar2 })).arena n2).includedChildProcs
              have hmem8 : n2 ∈ (includedPass { st5 with arena := ar2 }).absProcs := by
                rw [(includedPass_keeps _).2.2.2.2.1]
                exact hmemAbs a2p n2 hmem2
              rw [sortIncluded_childlist (includedPass { st5 with arena := ar2 }) n2 hmem8 hnd8,
                mem_sortNidsByPid]
              have hx := includedPassFold_child_est
                (({ st5 with arena := ar2 } : ProcTree).absProcs)
                { ({ st5 with arena := ar2 } : ProcTree) with
                    includedProcs := [], includedRootProcs := [] }
                nr n2 (hmemAbs rp nr hmem3) hir ((har2par nr).trans hpc1)
              exact hx

/-- Witness for claim C7: the enumeration `a1 (pid 1) → a2 (pid 5) → r (pid
10)` with configured root pid 10 and `includeRootAncestors = true`: the pid-1
node is the included root, and the pid-10 node is included but not a root,
reachable from the pid-1 node through the included child lists. -/
theorem ancestorInclusionToggleWitness :
    (c7Enum.map GProc.pid).Nodup ∧
    (∃ n1 n2 nr : Nat,
      lookupPid c7StAnc.pidMap 1 = some n1 ∧
      lookupPid c7StAnc.pidMap 5 = some n2 ∧
      lookupPid c7StAnc.pidMap 10 = some nr ∧
      (c7StAnc.arena n1).gops = ⟨1, 0, "a1"⟩ ∧
      (c7StAnc.arena n2).gops = ⟨5, 1, "a2"⟩ ∧
      (c7StAnc.arena nr).gops = ⟨10, 5, "r"⟩ ∧
      nr ∈ Processes c7StAnc ∧
      (true = false → nr ∈ Roots c7StAnc) ∧
      (true = true →
        n1 ∈ Roots c7StAnc ∧ nr ∉ Roots c7StAnc ∧
        n2 ∈ (c7StAnc.arena n1).includedChildProcs ∧
        nr ∈ (c7StAnc.arena n2).includedChildProcs)) :=
  ⟨by decide,
    ancestorInclusionToggle 30 c7Enum false true 1 5 10 "a1" "a2" "r" c7StAnc
      (by decide) (by decide) (by decide) (by decide)
      (by decide) (by decide) (by decide)
      (by decide) (by decide) (by decide)
      rfl⟩
